import Mathlib

/-!
Verification development for the gRPC client connection pool of
stones-hub/taurus-pro-grpc (pkg/grpc/client, ConnPool and friends).

The Go code is shallowly embedded: connections (`*grpc.ClientConn`) are
identified by natural-number ids handed out by a fresh-id counter (each
`grpc.Dial` yields a fresh pointer); the dynamic connectivity state reported
by `conn.GetState()` is carried as a field of the entry and may be changed
by an explicit environment step; wall-clock instants (`time.Time` /
`UnixNano`) are integers; `atomic.Int32` load counters are integers
(no claim involved here comes near the int32 wrap bounds); the `nil` map
that `Close` leaves behind is `Option.none`; the Go runtime fault raised by
assigning into a nil map is modelled as an explicit `panicked` result.
The write-only `ConnInfo.state` struct field of the Go code (assigned at
creation and in `CloseAddress`, never read anywhere) is not carried.
The stop-channel double-close fault of calling `Close` twice is not
modelled; a second `close` step is a no-op on the already-nil map.
-/

namespace TaurusGrpc

/-- Connectivity states of google.golang.org/grpc/connectivity. -/
inductive ConnState where
  | idle
  | connecting
  | ready
  | transientFailure
  | shutdown
deriving DecidableEq, Repr

/-- ConnInfo from options.go: one pooled connection plus bookkeeping.
`connId` models the identity of the `*grpc.ClientConn`; `connState` models
what `conn.GetState()` currently reports. -/
structure ConnInfo where
  connId : Nat
  connState : ConnState
  lastUsed : Int
  createdAt : Int
  load : Int
  isStream : Bool
deriving DecidableEq, Repr

instance : Inhabited ConnInfo :=
  ⟨{ connId := 0, connState := ConnState.idle, lastUsed := 0, createdAt := 0,
     load := 0, isStream := false }⟩

/-- PoolConfig from options.go. Durations are integral nanoseconds. -/
structure PoolConfig where
  minConnsPerAddr : Int
  maxConnsPerAddr : Int
  maxIdleConns : Int
  maxLoadPerConn : Int
  connMaxLifetime : Int
  connMaxIdleTime : Int
  dialTimeout : Int
deriving DecidableEq, Repr

/-- AddressPool from options.go: the two per-mode entry collections of one
remote address. -/
structure AddressPool where
  address : String
  unaryConns : List ConnInfo
  streamConns : List ConnInfo
deriving DecidableEq, Repr

/-- ConnPool from options.go. `pools = none` models the nil map left behind
by `Close`; `nextConnId` hands out fresh connection identities for dials;
`closedConns` records, in order, the ids on which `conn.Close()` was called. -/
structure PoolState where
  pools : Option (List (String × AddressPool))
  nextConnId : Nat
  closedConns : List Nat
deriving DecidableEq, Repr

/-- Selects the per-mode collection, as `conns := pool.unaryConns; if
isStream { conns = pool.streamConns }` does. -/
def modeConns (ap : AddressPool) (isStream : Bool) : List ConnInfo :=
  if isStream then ap.streamConns else ap.unaryConns

/-- The selection test of GetConn's scan: `GetState() == Ready` and
`load < MaxLoadPerConn`. -/
def eligible (cfg : PoolConfig) (c : ConnInfo) : Bool :=
  c.connState == ConnState.ready && decide (c.load < cfg.maxLoadPerConn)

/-- The scan loop of GetConn: `for i := 0; i < len(conns); i++ { index :=
(startIndex + i) % len(conns); ... }`, returning the absolute index of the
first eligible entry. The fuel argument is the remaining iteration count
`len(conns) - i`; it makes the recursion structural. -/
def scanLoopAux (cfg : PoolConfig) (conns : List ConnInfo) (start : Nat) :
    Nat → Nat → Option Nat
  | _, 0 => none
  | i, Nat.succ fuel =>
      if i < conns.length then
        let idx := (start + i) % conns.length
        if eligible cfg (conns.getD idx default) then some idx
        else scanLoopAux cfg conns start (i + 1) fuel
      else none

/-- One full circular scan starting at `start`, as GetConn performs when the
collection is non-empty. -/
def scanStart (cfg : PoolConfig) (conns : List ConnInfo) (start : Nat) : Option Nat :=
  scanLoopAux cfg conns start 0 conns.length

/-- The fresh ConnInfo built by GetConn after a successful dial: `lastUsed`
and `createdAt` are the current time, `load` is stored as 1, and the struct's
state field is written as Ready. -/
def freshConn (now : Nat) (nextId : Nat) (isStream : Bool) : ConnInfo :=
  { connId := nextId, connState := ConnState.ready, lastUsed := (now : Int),
    createdAt := (now : Int), load := 1, isStream := isStream }

/-- Outcomes of GetConn. `panicked` models the Go runtime fault of
assigning into the nil `pools` map after `Close`. -/
inductive GetConnResult where
  | ok (connId : Nat)
  | dialFailed
  | poolExhausted
  | panicked
deriving DecidableEq, Repr

/-- The body of GetConn acting on one per-mode collection: scan from the
time-seeded index, else dial if below MaxConnsPerAddr, else fail.
`dialOk` is the outcome of the underlying `grpc.Dial`. Returns the result,
the updated collection and the updated fresh-id counter. -/
def getConnList (cfg : PoolConfig) (now : Nat) (dialOk : Bool) (nextId : Nat)
    (isStream : Bool) (conns : List ConnInfo) :
    GetConnResult × List ConnInfo × Nat :=
  let scanRes := if 0 < conns.length then scanStart cfg conns (now % conns.length) else none
  match scanRes with
  | some idx =>
      let c := conns.getD idx default
      (GetConnResult.ok c.connId,
       conns.set idx { c with lastUsed := (now : Int), load := c.load + 1 }, nextId)
  | none =>
      if (conns.length : Int) < cfg.maxConnsPerAddr then
        if dialOk then
          (GetConnResult.ok nextId, conns ++ [freshConn now nextId isStream], nextId + 1)
        else (GetConnResult.dialFailed, conns, nextId)
      else (GetConnResult.poolExhausted, conns, nextId)

/-- Assoc-list read of the `pools` map. -/
def lookupPool : List (String × AddressPool) → String → Option AddressPool
  | [], _ => none
  | (a, ap) :: rest, addr => if a = addr then some ap else lookupPool rest addr

/-- Assoc-list write of the `pools` map (replaces the first binding of the
key, appends when absent; Go map keys are unique so at most one binding
exists in reachable states). -/
def setPool : List (String × AddressPool) → String → AddressPool →
    List (String × AddressPool)
  | [], addr, ap => [(addr, ap)]
  | (a, ap0) :: rest, addr, ap =>
      if a = addr then (a, ap) :: rest else (a, ap0) :: setPool rest addr ap

/-- Assoc-list delete of the `pools` map. -/
def removePool : List (String × AddressPool) → String → List (String × AddressPool)
  | [], _ => []
  | (a, ap) :: rest, addr => if a = addr then rest else (a, ap) :: removePool rest addr

/-- ConnPool.GetConn: look up or lazily create the AddressPool, then select
or create an entry in the per-mode collection. When `pools` is the nil map
left by Close, the Go code faults on the map assignment; modelled as
`panicked` with the state returned unchanged. -/
def getConn (cfg : PoolConfig) (s : PoolState) (address : String) (isStream : Bool)
    (now : Nat) (dialOk : Bool) : GetConnResult × PoolState :=
  match s.pools with
  | none => (GetConnResult.panicked, s)
  | some ps =>
      match lookupPool ps address with
      | some pool =>
          let r := getConnList cfg now dialOk s.nextConnId isStream (modeConns pool isStream)
          let pool2 := if isStream then { pool with streamConns := r.2.1 }
                       else { pool with unaryConns := r.2.1 }
          (r.1, { s with pools := some (setPool ps address pool2), nextConnId := r.2.2 })
      | none =>
          let pool : AddressPool := { address := address, unaryConns := [], streamConns := [] }
          let r := getConnList cfg now dialOk s.nextConnId isStream (modeConns pool isStream)
          let pool2 := if isStream then { pool with streamConns := r.2.1 }
                       else { pool with unaryConns := r.2.1 }
          (r.1, { s with pools := some (setPool (ps ++ [(address, pool)]) address pool2),
                         nextConnId := r.2.2 })

/-- The per-collection search of ReleaseConn: decrement the load of the
first entry whose connection matches, reporting whether one was found. -/
def releaseList (connId : Nat) : List ConnInfo → Option (List ConnInfo)
  | [] => none
  | c :: rest =>
      if c.connId = connId then some ({ c with load := c.load - 1 } :: rest)
      else Option.map (fun l => c :: l) (releaseList connId rest)

/-- ReleaseConn inside one AddressPool: unary collection first, then the
streaming collection. -/
def releaseInPool (connId : Nat) (ap : AddressPool) : Option AddressPool :=
  match releaseList connId ap.unaryConns with
  | some l => some { ap with unaryConns := l }
  | none =>
      match releaseList connId ap.streamConns with
      | some l => some { ap with streamConns := l }
      | none => none

/-- ReleaseConn over the pool map: stop at the first AddressPool containing
the handle. -/
def releasePools (connId : Nat) : List (String × AddressPool) → List (String × AddressPool)
  | [] => []
  | (a, ap) :: rest =>
      match releaseInPool connId ap with
      | some ap2 => (a, ap2) :: rest
      | none => (a, ap) :: releasePools connId rest

/-- ConnPool.ReleaseConn: decrement the matching entry's load; silently do
nothing when the handle is not found (including after Close, when ranging
over the nil map performs no iterations). Returns no error by design. -/
def releaseConn (s : PoolState) (connId : Nat) : PoolState :=
  match s.pools with
  | none => s
  | some ps => { s with pools := some (releasePools connId ps) }

/-- Idle-time test of the cleanup loop: `now.Sub(conn.lastUsed) >
p.config.ConnMaxIdleTime`. -/
def idleTimedOut (cfg : PoolConfig) (now : Int) (c : ConnInfo) : Bool :=
  decide (now - c.lastUsed > cfg.connMaxIdleTime)

/-- Lifetime test of the cleanup loop: `now.Sub(conn.createdAt) >
p.config.ConnMaxLifetime`. -/
def lifetimeExceeded (cfg : PoolConfig) (now : Int) (c : ConnInfo) : Bool :=
  decide (now - c.createdAt > cfg.connMaxLifetime)

/-- Terminal/broken connectivity test of the cleanup loop:
TransientFailure or Shutdown. -/
def broken (c : ConnInfo) : Bool :=
  c.connState == ConnState.transientFailure || c.connState == ConnState.shutdown

/-- The full eviction condition of one cleanup pass on one entry: broken
entries go unconditionally; otherwise idle entries (`load == 0`) past their
idle time or lifetime go. -/
def shouldEvict (cfg : PoolConfig) (now : Int) (c : ConnInfo) : Bool :=
  broken c || (c.load == 0 && (idleTimedOut cfg now c || lifetimeExceeded cfg now c))

/-- The cleanup loop over one collection, exactly as written in Go: on
eviction the entry is closed, the last element is swapped into its slot, the
slice is truncated and the index is decremented. Returns the surviving
collection and the closed connection ids in closing order. The fuel is the
remaining iteration count `len - i`, which each iteration decreases. -/
def sweepLoopAux (cfg : PoolConfig) (now : Int) :
    List ConnInfo → Nat → Nat → List ConnInfo × List Nat
  | conns, _, 0 => (conns, [])
  | conns, i, Nat.succ fuel =>
      if i < conns.length then
        let c := conns.getD i default
        if shouldEvict cfg now c then
          let r := sweepLoopAux cfg now ((conns.set i (conns.getLastD default)).dropLast) i fuel
          (r.1, c.connId :: r.2)
        else sweepLoopAux cfg now conns (i + 1) fuel
      else (conns, [])

/-- One cleanup pass over one collection. -/
def sweepConns (cfg : PoolConfig) (now : Int) (conns : List ConnInfo) :
    List ConnInfo × List Nat :=
  sweepLoopAux cfg now conns 0 conns.length

/-- One cleanup pass over one AddressPool: unary collection first, then the
streaming collection, as in cleanupLoop. -/
def sweepPool (cfg : PoolConfig) (now : Int) (ap : AddressPool) : AddressPool × List Nat :=
  let ru := sweepConns cfg now ap.unaryConns
  let rs := sweepConns cfg now ap.streamConns
  ({ ap with unaryConns := ru.1, streamConns := rs.1 }, ru.2 ++ rs.2)

/-- One tick of cleanupLoop: sweep every AddressPool. After Close the range
over the nil map performs no iterations. -/
def sweepState (cfg : PoolConfig) (now : Int) (s : PoolState) : PoolState :=
  match s.pools with
  | none => s
  | some ps =>
      { s with
        pools := some (ps.map (fun p => (p.1, (sweepPool cfg now p.2).1))),
        closedConns := s.closedConns ++
          (ps.map (fun p => (sweepPool cfg now p.2).2)).foldr (fun a b => a ++ b) [] }

/-- Both collections of one AddressPool in the order CloseAddress, Close and
ReleaseConn visit them: unary first, then streaming. -/
def poolAllConns (ap : AddressPool) : List ConnInfo :=
  ap.unaryConns ++ ap.streamConns

/-- Concatenation of every pool's entries, for stating whole-map facts. -/
def joinPools (ps : List (String × AddressPool)) : List ConnInfo :=
  (ps.map (fun p => poolAllConns p.2)).foldr (fun a b => a ++ b) []

/-- Every entry of the pool, in map order, unary before streaming within
each address. -/
def allConns (s : PoolState) : List ConnInfo :=
  joinPools (s.pools.getD [])

/-- The connection ids of every entry, in the same order. -/
def allIds (s : PoolState) : List Nat :=
  (allConns s).map (fun c => c.connId)

/-- Last-error accumulation of CloseAddress and Close: `if err :=
conn.Close(); err != nil { lastErr = err }`. `closeErrOf` tells which
connections fail to close; the reported error is the id of the last failing
one. -/
def closeConnsErr (closeErrOf : Nat → Bool) (start : Option Nat)
    (conns : List ConnInfo) : Option Nat :=
  conns.foldl (fun acc c => if closeErrOf c.connId then some c.connId else acc) start

/-- ConnPool.CloseAddress: remove the AddressPool from the map, then close
every entry's handle keeping the last error; nil (no error, no change) when
the address is absent or the map is nil. -/
def closeAddress (s : PoolState) (address : String) (closeErrOf : Nat → Bool) :
    Option Nat × PoolState :=
  match s.pools with
  | none => (none, s)
  | some ps =>
      match lookupPool ps address with
      | none => (none, s)
      | some pool =>
          let cs := poolAllConns pool
          (closeConnsErr closeErrOf none cs,
           { s with pools := some (removePool ps address),
                    closedConns := s.closedConns ++ cs.map (fun c => c.connId) })

/-- ConnPool.Close: close every handle in every AddressPool (unary before
streaming, pools in map order), keep the last error, and leave the nil map
behind. -/
def closeState (s : PoolState) (closeErrOf : Nat → Bool) : Option Nat × PoolState :=
  let cs := allConns s
  (closeConnsErr closeErrOf none cs,
   { s with pools := none, closedConns := s.closedConns ++ cs.map (fun c => c.connId) })

/-- Environment step: the transport layer changes what `GetState()` reports
for one connection. Touches no bookkeeping. -/
def setConnStateList (connId : Nat) (st : ConnState) (conns : List ConnInfo) :
    List ConnInfo :=
  conns.map (fun c => if c.connId = connId then { c with connState := st } else c)

/-- Environment step lifted to the whole pool. -/
def envSetState (s : PoolState) (connId : Nat) (st : ConnState) : PoolState :=
  match s.pools with
  | none => s
  | some ps =>
      { s with pools := some (ps.map (fun p => (p.1,
          { p.2 with unaryConns := setConnStateList connId st p.2.unaryConns,
                     streamConns := setConnStateList connId st p.2.streamConns }))) }

/-- Stats counters of one mode, per address or aggregated. -/
structure StatCounters where
  totalConnections : Nat
  readyConnections : Nat
  idleConnections : Nat
  failedConnections : Nat
  totalLoad : Int
deriving DecidableEq, Repr

/-- The per-entry switch of Stats: Ready entries count as ready (and as idle
when load is 0), TransientFailure and Shutdown count as failed, every
entry's load is added to the total load. -/
def statsAdd (acc : StatCounters) (c : ConnInfo) : StatCounters :=
  let acc1 :=
    match c.connState with
    | ConnState.ready =>
        let acc2 := { acc with readyConnections := acc.readyConnections + 1 }
        if c.load == 0 then { acc2 with idleConnections := acc2.idleConnections + 1 }
        else acc2
    | ConnState.transientFailure =>
        { acc with failedConnections := acc.failedConnections + 1 }
    | ConnState.shutdown =>
        { acc with failedConnections := acc.failedConnections + 1 }
    | _ => acc
  { acc1 with totalLoad := acc1.totalLoad + c.load }

/-- Stats of one collection: total_connections starts at the length, the
loop fills the rest. -/
def statsForList (conns : List ConnInfo) : StatCounters :=
  conns.foldl statsAdd
    { totalConnections := conns.length, readyConnections := 0, idleConnections := 0,
      failedConnections := 0, totalLoad := 0 }

/-- Fieldwise sum, as Stats adds each address's counters into the totals. -/
def countersAdd (a b : StatCounters) : StatCounters :=
  { totalConnections := a.totalConnections + b.totalConnections,
    readyConnections := a.readyConnections + b.readyConnections,
    idleConnections := a.idleConnections + b.idleConnections,
    failedConnections := a.failedConnections + b.failedConnections,
    totalLoad := a.totalLoad + b.totalLoad }

/-- The zero counters Stats starts its totals from. -/
def countersZero : StatCounters :=
  { totalConnections := 0, readyConnections := 0, idleConnections := 0,
    failedConnections := 0, totalLoad := 0 }

/-- One mode's slice of the Stats output: by-address counters plus totals. -/
structure ModeStats where
  byAddress : List (String × StatCounters)
  total : StatCounters
deriving DecidableEq, Repr

/-- Stats over one mode: walk the pools, compute each address's counters,
add them into the running totals. -/
def statsMode (ps : List (String × AddressPool)) (pick : AddressPool → List ConnInfo) :
    ModeStats :=
  ps.foldl
    (fun acc p =>
      let a := statsForList (pick p.2)
      { byAddress := acc.byAddress ++ [(p.1, a)], total := countersAdd acc.total a })
    { byAddress := [], total := countersZero }

/-- ConnPool.Stats: the unary and streaming slices. -/
def stats (s : PoolState) : ModeStats × ModeStats :=
  (statsMode (s.pools.getD []) (fun ap => ap.unaryConns),
   statsMode (s.pools.getD []) (fun ap => ap.streamConns))

/-- The externally invocable operations, for whole-trace statements.
`acquire` carries the call instant (UnixNano) and the dial outcome;
`closeAddr` and `closeAll` carry which handles would fail to close;
`envState` is the transport layer changing a connection's reported state. -/
inductive PoolOp where
  | acquire (address : String) (isStream : Bool) (now : Nat) (dialOk : Bool)
  | release (connId : Nat)
  | sweep (now : Int)
  | closeAddr (address : String) (closeErrOf : Nat → Bool)
  | closeAll (closeErrOf : Nat → Bool)
  | envState (connId : Nat) (st : ConnState)

/-- One operation applied to the pool state. -/
def step (cfg : PoolConfig) (s : PoolState) : PoolOp → PoolState
  | PoolOp.acquire a m now d => (getConn cfg s a m now d).2
  | PoolOp.release c => releaseConn s c
  | PoolOp.sweep now => sweepState cfg now s
  | PoolOp.closeAddr a f => (closeAddress s a f).2
  | PoolOp.closeAll f => (closeState s f).2
  | PoolOp.envState c st => envSetState s c st

/-- The state NewConnPool produces: empty map, no connections yet. -/
def initState : PoolState :=
  { pools := some [], nextConnId := 0, closedConns := [] }

/-- Run a sequence of operations from the freshly constructed pool. -/
def runTrace (cfg : PoolConfig) (ops : List PoolOp) : PoolState :=
  ops.foldl (step cfg) initState

/-- The collection the pool holds for one address and mode (empty when the
address is absent or the map is nil). -/
def collConns (s : PoolState) (addr : String) (isStream : Bool) : List ConnInfo :=
  match s.pools with
  | none => []
  | some ps =>
      match lookupPool ps addr with
      | some ap => modeConns ap isStream
      | none => []

/-- Number of entries the pool holds for one address and mode. -/
def collLen (s : PoolState) (addr : String) (isStream : Bool) : Nat :=
  (collConns s addr isStream).length

/-- Well-formedness of the map model: Go map keys are unique. -/
def keysNodup (s : PoolState) : Prop :=
  ((s.pools.getD []).map Prod.fst).Nodup

/-- Entry with the load forgotten, for stating that an operation changes
nothing but loads. -/
def eraseLoad (c : ConnInfo) : ConnInfo :=
  { c with load := 0 }

/-- Everything about the pool except the loads (and the fresh-id counter and
close log, which are stated separately). -/
def poolsShape (s : PoolState) : Option (List (String × String × List ConnInfo × List ConnInfo)) :=
  s.pools.map (List.map (fun p =>
    (p.1, p.2.address, p.2.unaryConns.map eraseLoad, p.2.streamConns.map eraseLoad)))

/-- The in-place refresh GetConn performs on a selected entry: stamp
lastUsed with the acquisition instant and check one more caller out. -/
def touchConn (now : Nat) (c : ConnInfo) : ConnInfo :=
  { c with lastUsed := (now : Int), load := c.load + 1 }

/-- Eligibility of the entry sitting at circular offset `j` from `start`. -/
def eligibleAt (cfg : PoolConfig) (conns : List ConnInfo) (start j : Nat) : Bool :=
  eligible cfg (conns.getD ((start + j) % conns.length) default)

/-- Modelled from the spec (4.2): the offset, along the circular scan that
starts at `start`, of the first entry in Ready state with load below
MaxLoadPerConn. The spec's words, independent of the loop in the source. -/
def firstEligibleOffset (cfg : PoolConfig) (conns : List ConnInfo) (start : Nat) :
    Option Nat :=
  (List.range conns.length).find? (eligibleAt cfg conns start)

/-- Modelled from the spec (4.7/8): the counters Stats is claimed to report
for one collection, written with counting/summing primitives rather than the
source's accumulator loop. -/
def specCounters (conns : List ConnInfo) : StatCounters :=
  { totalConnections := conns.length,
    readyConnections := conns.countP (fun c => c.connState == ConnState.ready),
    idleConnections := conns.countP
      (fun c => c.connState == ConnState.ready && c.load == 0),
    failedConnections := conns.countP (fun c => broken c),
    totalLoad := (conns.map (fun c => c.load)).sum }

/-- Modelled from the spec (4.3): decrement the load of the first entry, in
the given flat order, whose handle matches; leave everything else alone. -/
def decFirstLoad (cid : Nat) : List ConnInfo → List ConnInfo
  | [] => []
  | c :: rest =>
      if c.connId = cid then { c with load := c.load - 1 } :: rest
      else c :: decFirstLoad cid rest

/-- Ghost credit update: one more (or one fewer) outstanding checkout of a
connection id. -/
def bumpG (g : Nat → Int) (c : Nat) (d : Int) : Nat → Int :=
  fun i => if i = c then g i + d else g i

/-- Ghost accounting alongside a step: a successful acquire checks one
reference out of the returned handle, a release checks one in. -/
def ghostStep (cfg : PoolConfig) (s : PoolState) (g : Nat → Int) : PoolOp → (Nat → Int)
  | PoolOp.acquire a m now d =>
      match (getConn cfg s a m now d).1 with
      | GetConnResult.ok c => bumpG g c 1
      | _ => g
  | PoolOp.release c => bumpG g c (-1)
  | _ => g

/-- The balanced-release discipline from state `s` with outstanding credits
`g`: every release concerns a handle with at least one outstanding checkout
(i.e. no handle is released more often than acquires returned it). -/
def BalancedFrom (cfg : PoolConfig) : PoolState → (Nat → Int) → List PoolOp → Prop
  | _, _, [] => True
  | s, g, op :: rest =>
      (match op with
       | PoolOp.release c => 1 ≤ g c
       | _ => True) ∧ BalancedFrom cfg (step cfg s op) (ghostStep cfg s g op) rest

/-- The balanced-release discipline over a whole trace from the fresh pool. -/
def Balanced (cfg : PoolConfig) (ops : List PoolOp) : Prop :=
  BalancedFrom cfg initState (fun _ => 0) ops

/-- The inductive invariant tying entry loads to outstanding checkouts:
entry ids are distinct and below the fresh-id counter, every present entry's
load equals its handle's outstanding credit, credits are non-negative, and
ids not yet handed out carry no credit. -/
def GhostInv (s : PoolState) (g : Nat → Int) : Prop :=
  (allIds s).Nodup ∧
  (∀ c ∈ allConns s, c.connId < s.nextConnId) ∧
  (∀ c ∈ allConns s, c.load = g c.connId) ∧
  (∀ i, 0 ≤ g i) ∧
  (∀ i, s.nextConnId ≤ i → g i = 0)

/-- A saturating configuration: one connection per address, one caller per
connection (the spec's mutual-exclusion scenario). -/
def cfgSat : PoolConfig :=
  { minConnsPerAddr := 2, maxConnsPerAddr := 1, maxIdleConns := 2, maxLoadPerConn := 1,
    connMaxLifetime := 1000, connMaxIdleTime := 100, dialTimeout := 5 }

/-- A roomier configuration for witnesses. -/
def cfgTen : PoolConfig :=
  { minConnsPerAddr := 2, maxConnsPerAddr := 10, maxIdleConns := 2, maxLoadPerConn := 100,
    connMaxLifetime := 1000, connMaxIdleTime := 100, dialTimeout := 5 }

/-- A ready entry holding one caller. -/
def entryR1 : ConnInfo :=
  { connId := 0, connState := ConnState.ready, lastUsed := 0, createdAt := 0,
    load := 1, isStream := false }

/-- A ready idle entry. -/
def entryR0 : ConnInfo :=
  { connId := 1, connState := ConnState.ready, lastUsed := 0, createdAt := 0,
    load := 0, isStream := false }

/-- One address holding the two entries of the Stats scenario. -/
def poolStats : AddressPool :=
  { address := "a", unaryConns := [entryR1, entryR0], streamConns := [] }

/-- The Stats scenario state: one address, two ready entries with loads one
and zero. -/
def sStats : PoolState :=
  { pools := some [("a", poolStats)], nextConnId := 2, closedConns := [] }

/-- The counters the spec's Stats scenario expects. -/
def countersScenario : StatCounters :=
  { totalConnections := 2, readyConnections := 2, idleConnections := 1,
    failedConnections := 0, totalLoad := 1 }

/-- The entry left behind by one acquire at instant 0 followed by its
release. -/
def entryBal : ConnInfo :=
  { connId := 0, connState := ConnState.ready, lastUsed := 0, createdAt := 0,
    load := 0, isStream := false }

theorem getD_of_lt {α : Type _} [Inhabited α] (l : List α) (i : Nat) (h : i < l.length) :
    l.getD i default = l[i] := by
  simp [List.getD_eq_getElem?_getD, List.getElem?_eq_getElem h]

theorem lookupPool_append_none {ps : List (String × AddressPool)} {a : String}
    (h : lookupPool ps a = none) (qs : List (String × AddressPool)) :
    lookupPool (ps ++ qs) a = lookupPool qs a := by
  induction ps with
  | nil => rfl
  | cons p rest ih =>
      cases p with
      | mk k v =>
          by_cases hk : k = a
          · simp [lookupPool, hk] at h
          · simp only [lookupPool, hk, if_false] at h
            simp only [List.cons_append, lookupPool, hk, if_false]
            exact ih h

theorem lookupPool_append_some {ps : List (String × AddressPool)} {a : String}
    {ap : AddressPool} (h : lookupPool ps a = some ap) (qs : List (String × AddressPool)) :
    lookupPool (ps ++ qs) a = some ap := by
  induction ps with
  | nil => simp [lookupPool] at h
  | cons p rest ih =>
      cases p with
      | mk k v =>
          by_cases hk : k = a
          · simp only [lookupPool, hk, if_true] at h ⊢
            simpa using h
          · simp only [lookupPool, hk, if_false, List.cons_append] at h ⊢
            exact ih h

theorem lookupPool_eq_none_iff (ps : List (String × AddressPool)) (a : String) :
    lookupPool ps a = none ↔ a ∉ ps.map Prod.fst := by
  induction ps with
  | nil => simp [lookupPool]
  | cons p rest ih =>
      cases p with
      | mk k v =>
          simp only [List.map_cons, List.mem_cons]
          by_cases hk : k = a
          · subst hk
            simp [lookupPool]
          · simp only [lookupPool, hk, if_false, ih]
            constructor
            · intro h hmem
              rcases hmem with h1 | h2
              · exact hk h1.symm
              · exact h h2
            · intro h hmem
              exact h (Or.inr hmem)

theorem lookupPool_setPool (ps : List (String × AddressPool)) (a b : String)
    (ap : AddressPool) :
    lookupPool (setPool ps a ap) b = if b = a then some ap else lookupPool ps b := by
  induction ps with
  | nil =>
      by_cases h : b = a
      · subst h
        simp [setPool, lookupPool]
      · have h2 : ¬ a = b := fun hh => h hh.symm
        simp [setPool, lookupPool, h, h2]
  | cons p rest ih =>
      cases p with
      | mk k v =>
          by_cases hk : k = a
          · simp only [setPool, if_pos hk]
            by_cases hb : b = a
            · subst hb
              simp [lookupPool, hk]
            · have hkb : ¬ k = b := fun hh => hb (hh.symm.trans hk)
              simp [lookupPool, hkb, hb]
          · simp only [setPool, if_neg hk]
            by_cases hkb : k = b
            · subst hkb
              have hba : ¬ k = a := hk
              simp [lookupPool, hba]
            · simp only [lookupPool, hkb, if_false, ih]

theorem setPool_append_absent {ps : List (String × AddressPool)} {a : String}
    (h : lookupPool ps a = none) (ap ap2 : AddressPool) :
    setPool (ps ++ [(a, ap)]) a ap2 = ps ++ [(a, ap2)] := by
  induction ps with
  | nil => simp [setPool]
  | cons p rest ih =>
      cases p with
      | mk k v =>
          by_cases hk : k = a
          · simp [lookupPool, hk] at h
          · simp only [lookupPool, hk, if_false] at h
            simp [setPool, hk, ih h]

theorem lookupPool_split {ps : List (String × AddressPool)} {a : String}
    {ap : AddressPool} (h : lookupPool ps a = some ap) :
    ∃ l r, ps = l ++ (a, ap) :: r ∧ lookupPool l a = none ∧
      ∀ ap2, setPool ps a ap2 = l ++ (a, ap2) :: r := by
  induction ps with
  | nil => simp [lookupPool] at h
  | cons p rest ih =>
      cases p with
      | mk k v =>
          by_cases hk : k = a
          · subst hk
            simp only [lookupPool, if_true] at h
            refine ⟨[], rest, ?_, ?_, ?_⟩
            · simp at h; simp [h]
            · simp [lookupPool]
            · intro ap2; simp [setPool]
          · simp only [lookupPool, hk, if_false] at h
            obtain ⟨l, r, hps, hl, hset⟩ := ih h
            refine ⟨(k, v) :: l, r, by simp [hps], ?_, ?_⟩
            · simp [lookupPool, hk, hl]
            · intro ap2; simp [setPool, hk, hset ap2]

theorem lookupPool_removePool_ne (ps : List (String × AddressPool)) {a b : String}
    (h : b ≠ a) : lookupPool (removePool ps a) b = lookupPool ps b := by
  induction ps with
  | nil => rfl
  | cons p rest ih =>
      cases p with
      | mk k v =>
          by_cases hk : k = a
          · simp only [removePool, if_pos hk]
            have hkb : ¬ k = b := fun hh => h (hh.symm.trans hk)
            simp [lookupPool, hkb]
          · simp only [removePool, if_neg hk, lookupPool]
            by_cases hkb : k = b <;> simp [hkb, ih]

theorem removePool_of_none {ps : List (String × AddressPool)} {a : String}
    (h : lookupPool ps a = none) : removePool ps a = ps := by
  induction ps with
  | nil => simp [removePool]
  | cons p rest ih =>
      cases p with
      | mk k v =>
          by_cases hk : k = a
          · simp [lookupPool, hk] at h
          · simp only [lookupPool, hk, if_false] at h
            simp [removePool, hk, ih h]

theorem keys_removePool_sublist (ps : List (String × AddressPool)) (a : String) :
    ((removePool ps a).map Prod.fst).Sublist (ps.map Prod.fst) := by
  induction ps with
  | nil => simp [removePool]
  | cons p rest ih =>
      cases p with
      | mk k v =>
          by_cases hk : k = a
          · simp only [removePool, if_pos hk, List.map_cons]
            exact List.sublist_cons_self _ _
          · simp only [removePool, if_neg hk, List.map_cons]
            exact ih.cons₂ k

theorem lookupPool_removePool_self {ps : List (String × AddressPool)} {a : String}
    (h : (ps.map Prod.fst).Nodup) : lookupPool (removePool ps a) a = none := by
  induction ps with
  | nil => simp [removePool, lookupPool]
  | cons p rest ih =>
      cases p with
      | mk k v =>
          simp only [List.map_cons, List.nodup_cons] at h
          by_cases hk : k = a
          · subst hk
            simp only [removePool, if_true]
            exact (lookupPool_eq_none_iff rest k).2 h.1
          · simp only [removePool, hk, if_false, lookupPool]
            exact ih h.2

theorem removePool_split {ps : List (String × AddressPool)} {a : String}
    {ap : AddressPool} {l r : List (String × AddressPool)}
    (hps : ps = l ++ (a, ap) :: r) (hl : lookupPool l a = none) :
    removePool ps a = l ++ r := by
  subst hps
  induction l with
  | nil => simp [removePool]
  | cons p rest ih =>
      cases p with
      | mk k v =>
          by_cases hk : k = a
          · simp [lookupPool, hk] at hl
          · simp only [lookupPool, hk, if_false] at hl
            simp [removePool, hk, ih hl]

theorem joinPools_nil : joinPools [] = [] := rfl

theorem joinPools_cons (p : String × AddressPool) (ps : List (String × AddressPool)) :
    joinPools (p :: ps) = poolAllConns p.2 ++ joinPools ps := rfl

theorem joinPools_append (l r : List (String × AddressPool)) :
    joinPools (l ++ r) = joinPools l ++ joinPools r := by
  induction l with
  | nil => simp [joinPools]
  | cons p rest ih => simp [joinPools_cons, ih, List.append_assoc]

theorem keys_setPool_some {ps : List (String × AddressPool)} {a : String}
    {ap0 : AddressPool} (h : lookupPool ps a = some ap0) (ap : AddressPool) :
    (setPool ps a ap).map Prod.fst = ps.map Prod.fst := by
  obtain ⟨l, r, hps, hl, hset⟩ := lookupPool_split h
  rw [hset ap, hps]
  simp

theorem keys_setPool_none {ps : List (String × AddressPool)} {a : String}
    (h : lookupPool ps a = none) (ap : AddressPool) :
    (setPool ps a ap).map Prod.fst = ps.map Prod.fst ++ [a] := by
  induction ps with
  | nil => simp [setPool]
  | cons p rest ih =>
      cases p with
      | mk k v =>
          by_cases hk : k = a
          · simp [lookupPool, hk] at h
          · simp only [lookupPool, hk, if_false] at h
            simp [setPool, hk, ih h]

theorem scanLoopAux_eq_find (cfg : PoolConfig) (conns : List ConnInfo) (start : Nat) :
    ∀ fuel i, conns.length ≤ i + fuel →
    scanLoopAux cfg conns start i fuel =
      Option.map (fun j => (start + j) % conns.length)
        ((List.range' i (conns.length - i)).find? (eligibleAt cfg conns start)) := by
  intro fuel
  induction fuel with
  | zero =>
      intro i h
      simp only [Nat.add_zero] at h
      simp [scanLoopAux, Nat.sub_eq_zero_of_le h]
  | succ fuel ih =>
      intro i h
      have hunfold : scanLoopAux cfg conns start i (fuel + 1) =
          (if i < conns.length then
            (if eligibleAt cfg conns start i
             then some ((start + i) % conns.length)
             else scanLoopAux cfg conns start (i + 1) fuel)
           else none) := rfl
      rw [hunfold]
      by_cases hi : i < conns.length
      · have hsub : conns.length - i = (conns.length - (i + 1)) + 1 := by omega
        rw [if_pos hi, hsub, List.range'_succ]
        simp only [List.find?_cons]
        cases he : eligibleAt cfg conns start i with
        | true => simp only [he, if_true, Option.map_some']
        | false =>
            simp only [he, Bool.false_eq_true, if_false]
            exact ih (i + 1) (by omega)
      · have hz : conns.length - i = 0 := by omega
        rw [if_neg hi, hz]
        simp

theorem scanStart_eq (cfg : PoolConfig) (conns : List ConnInfo) (start : Nat) :
    scanStart cfg conns start =
      Option.map (fun j => (start + j) % conns.length)
        (firstEligibleOffset cfg conns start) := by
  rw [scanStart, scanLoopAux_eq_find cfg conns start conns.length 0 (by omega)]
  rw [firstEligibleOffset, List.range_eq_range']
  simp

theorem scanStart_lt {cfg : PoolConfig} {conns : List ConnInfo} {start idx : Nat}
    (h : scanStart cfg conns start = some idx) : idx < conns.length := by
  rw [scanStart_eq] at h
  rcases Option.map_eq_some'.1 h with ⟨j, hj, hidx⟩
  have hmem := List.mem_range.1 (List.mem_of_find?_eq_some hj)
  have hpos : 0 < conns.length := by omega
  subst hidx
  exact Nat.mod_lt _ hpos

theorem forall_offset_iff_forall_mem (cfg : PoolConfig) (conns : List ConnInfo)
    (start : Nat) :
    (∀ j, j < conns.length → eligibleAt cfg conns start j = false) ↔
      ∀ c ∈ conns, eligible cfg c = false := by
  constructor
  · intro h c hc
    obtain ⟨k, hk, hck⟩ := List.mem_iff_getElem.1 hc
    have hL : 0 < conns.length := by omega
    have hs0 : start % conns.length < conns.length := Nat.mod_lt _ hL
    have hdm := Nat.div_add_mod start conns.length
    by_cases hle : start % conns.length ≤ k
    · have hj : k - start % conns.length < conns.length := by omega
      have h2 := h _ hj
      have h1 : start + (k - start % conns.length) =
          conns.length * (start / conns.length) + k := by omega
      rw [eligibleAt, h1, Nat.mul_add_mod, Nat.mod_eq_of_lt hk,
        getD_of_lt _ _ hk, hck] at h2
      exact h2
    · have hj : k + conns.length - start % conns.length < conns.length := by omega
      have h2 := h _ hj
      have h1 : start + (k + conns.length - start % conns.length) =
          conns.length * (start / conns.length) + (k + conns.length) := by omega
      rw [eligibleAt, h1, Nat.mul_add_mod, Nat.add_mod_right, Nat.mod_eq_of_lt hk,
        getD_of_lt _ _ hk, hck] at h2
      exact h2
  · intro h j hj
    have hL : 0 < conns.length := by omega
    have hm : (start + j) % conns.length < conns.length := Nat.mod_lt _ hL
    rw [eligibleAt, getD_of_lt _ _ hm]
    exact h _ (List.getElem_mem hm)

theorem scanStart_none_iff (cfg : PoolConfig) (conns : List ConnInfo) (start : Nat) :
    scanStart cfg conns start = none ↔ ∀ c ∈ conns, eligible cfg c = false := by
  rw [scanStart_eq, Option.map_eq_none', firstEligibleOffset, List.find?_eq_none,
    ← forall_offset_iff_forall_mem cfg conns start]
  constructor
  · intro h j hj
    have h2 := h j (List.mem_range.2 hj)
    cases hb : eligibleAt cfg conns start j with
    | true => exact absurd hb h2
    | false => rfl
  · intro h j hj
    have h2 := h j (List.mem_range.1 hj)
    rw [h2]
    simp

theorem eligible_eq_false_iff (cfg : PoolConfig) (c : ConnInfo) :
    eligible cfg c = false ↔
      ¬(c.connState = ConnState.ready ∧ c.load < cfg.maxLoadPerConn) := by
  rw [← Bool.not_eq_true]
  simp [eligible, Bool.and_eq_true]

theorem getConnList_eq (cfg : PoolConfig) (now : Nat) (dialOk : Bool) (nextId : Nat)
    (isStream : Bool) (conns : List ConnInfo) :
    getConnList cfg now dialOk nextId isStream conns =
      match scanStart cfg conns (now % conns.length) with
      | some idx =>
          let c := conns.getD idx default
          (GetConnResult.ok c.connId,
           conns.set idx { c with lastUsed := (now : Int), load := c.load + 1 }, nextId)
      | none =>
          if (conns.length : Int) < cfg.maxConnsPerAddr then
            if dialOk then
              (GetConnResult.ok nextId, conns ++ [freshConn now nextId isStream], nextId + 1)
            else (GetConnResult.dialFailed, conns, nextId)
          else (GetConnResult.poolExhausted, conns, nextId) := by
  have hguard : (if 0 < conns.length then scanStart cfg conns (now % conns.length)
      else none) = scanStart cfg conns (now % conns.length) := by
    by_cases h : 0 < conns.length
    · rw [if_pos h]
    · rw [if_neg h]
      have hnil : conns = [] := List.length_eq_zero.1 (by omega)
      subst hnil
      rfl
  rw [getConnList, hguard]

theorem getConnList_shape (cfg : PoolConfig) (now : Nat) (dialOk : Bool) (nextId : Nat)
    (isStream : Bool) (conns : List ConnInfo) :
    ((getConnList cfg now dialOk nextId isStream conns).2.1.length = conns.length ∧
      (getConnList cfg now dialOk nextId isStream conns).2.2 = nextId) ∨
    ((getConnList cfg now dialOk nextId isStream conns).2.1 =
        conns ++ [freshConn now nextId isStream] ∧
      (getConnList cfg now dialOk nextId isStream conns).2.2 = nextId + 1 ∧
      (conns.length : Int) < cfg.maxConnsPerAddr ∧
      (getConnList cfg now dialOk nextId isStream conns).1 = GetConnResult.ok nextId) := by
  rw [getConnList_eq]
  cases hs : scanStart cfg conns (now % conns.length) with
  | some idx => exact Or.inl ⟨by simp, rfl⟩
  | none =>
      by_cases hlen : (conns.length : Int) < cfg.maxConnsPerAddr
      · cases dialOk with
        | true => exact Or.inr ⟨by simp [hlen], by simp [hlen], hlen, by simp [hlen]⟩
        | false => exact Or.inl ⟨by simp [hlen], by simp [hlen]⟩
      · exact Or.inl ⟨by simp [hlen], by simp [hlen]⟩

theorem getConnList_exhausted_iff (cfg : PoolConfig) (now : Nat) (dialOk : Bool)
    (nextId : Nat) (isStream : Bool) (conns : List ConnInfo) :
    (getConnList cfg now dialOk nextId isStream conns).1 = GetConnResult.poolExhausted ↔
      ((∀ c ∈ conns, eligible cfg c = false) ∧
        ¬((conns.length : Int) < cfg.maxConnsPerAddr)) := by
  rw [getConnList_eq]
  cases hs : scanStart cfg conns (now % conns.length) with
  | some idx =>
      constructor
      · intro h
        exact GetConnResult.noConfusion h
      · intro h
        have hnone := (scanStart_none_iff cfg conns (now % conns.length)).2 h.1
        rw [hnone] at hs
        exact Option.noConfusion hs
  | none =>
      have hall := (scanStart_none_iff cfg conns (now % conns.length)).1 hs
      by_cases hlen : (conns.length : Int) < cfg.maxConnsPerAddr
      · cases dialOk with
        | true => simp [hlen]
        | false => simp [hlen]
      · simp [hlen]
        exact hall

theorem getConnList_exhausted_unchanged (cfg : PoolConfig) (now : Nat) (dialOk : Bool)
    (nextId : Nat) (isStream : Bool) (conns : List ConnInfo) :
    (getConnList cfg now dialOk nextId isStream conns).1 =
        GetConnResult.poolExhausted →
      (getConnList cfg now dialOk nextId isStream conns).2 = (conns, nextId) := by
  rw [getConnList_eq]
  cases hs : scanStart cfg conns (now % conns.length) with
  | some idx =>
      intro h
      exact GetConnResult.noConfusion h
  | none =>
      by_cases hlen : (conns.length : Int) < cfg.maxConnsPerAddr
      · cases dialOk with
        | true => simp [hlen]
        | false => simp [hlen]
      · simp [hlen]

theorem modeConns_update_same (pool : AddressPool) (m : Bool) (l : List ConnInfo) :
    modeConns (if m then { pool with streamConns := l }
               else { pool with unaryConns := l }) m = l := by
  cases m <;> simp [modeConns]

theorem modeConns_update_other (pool : AddressPool) {m m2 : Bool} (h : m2 ≠ m)
    (l : List ConnInfo) :
    modeConns (if m then { pool with streamConns := l }
               else { pool with unaryConns := l }) m2 = modeConns pool m2 := by
  cases m <;> cases m2 <;> simp_all [modeConns]

theorem getConn_bridge (cfg : PoolConfig) (s : PoolState) (addr : String) (m : Bool)
    (now : Nat) (dialOk : Bool) {ps : List (String × AddressPool)}
    (hps : s.pools = some ps) :
    (getConn cfg s addr m now dialOk).1 =
      (getConnList cfg now dialOk s.nextConnId m (collConns s addr m)).1 ∧
    collConns (getConn cfg s addr m now dialOk).2 addr m =
      (getConnList cfg now dialOk s.nextConnId m (collConns s addr m)).2.1 ∧
    (∀ b m2, ¬(b = addr ∧ m2 = m) →
      collConns (getConn cfg s addr m now dialOk).2 b m2 = collConns s b m2) ∧
    (getConn cfg s addr m now dialOk).2.nextConnId =
      (getConnList cfg now dialOk s.nextConnId m (collConns s addr m)).2.2 ∧
    (getConn cfg s addr m now dialOk).2.closedConns = s.closedConns := by
  cases hlk : lookupPool ps addr with
  | some pool =>
      have hcoll : collConns s addr m = modeConns pool m := by
        simp only [collConns, hps, hlk]
      refine ⟨?_, ?_, ?_, ?_, ?_⟩
      · rw [hcoll]
        simp [getConn, hps, hlk]
      · rw [hcoll]
        simp [getConn, hps, hlk, collConns, lookupPool_setPool, modeConns_update_same]
      · intro b m2 hbm
        by_cases hb : b = addr
        · have hm2 : m2 ≠ m := fun h2 => hbm ⟨hb, h2⟩
          subst hb
          simp [getConn, hps, hlk, collConns, lookupPool_setPool,
            modeConns_update_other pool hm2]
        · simp [getConn, hps, hlk, collConns, lookupPool_setPool, hb]
      · rw [hcoll]
        simp [getConn, hps, hlk]
      · simp [getConn, hps, hlk]
  | none =>
      have hcoll : collConns s addr m = [] := by
        simp only [collConns, hps, hlk]
      have hempty : modeConns { address := addr, unaryConns := [], streamConns := [] } m
          = [] := by
        cases m <;> rfl
      refine ⟨?_, ?_, ?_, ?_, ?_⟩
      · rw [hcoll]
        simp [getConn, hps, hlk, hempty]
      · rw [hcoll]
        simp [getConn, hps, hlk, hempty, collConns, setPool_append_absent hlk,
          lookupPool_append_none hlk, lookupPool, modeConns_update_same]
        cases m <;> simp [modeConns]
      · intro b m2 hbm
        by_cases hb : b = addr
        · have hm2 : m2 ≠ m := fun h2 => hbm ⟨hb, h2⟩
          subst hb
          simp [getConn, hps, hlk, hempty, collConns, setPool_append_absent hlk,
            lookupPool_append_none hlk, lookupPool,
            modeConns_update_other _ hm2]
          cases m <;> cases m2 <;> simp_all [modeConns]
        · cases hlkb : lookupPool ps b with
          | some apb =>
              simp [getConn, hps, hlk, hempty, collConns, setPool_append_absent hlk,
                lookupPool_append_some hlkb, hlkb]
          | none =>
              simp [getConn, hps, hlk, hempty, collConns, setPool_append_absent hlk,
                lookupPool_append_none hlkb, hlkb, lookupPool, Ne.symm hb]
      · rw [hcoll]
        simp [getConn, hps, hlk, hempty, setPool_append_absent hlk]
      · simp [getConn, hps, hlk, hempty, setPool_append_absent hlk]

/-- C3: GetConn's selection/creation algorithm on a per-mode collection:
when some entry along the circular scan (started at the time-seeded index
`now % len`) is Ready with load below MaxLoadPerConn, the first such entry is
selected, its lastUsed is refreshed, its load incremented by one and its
handle returned, the collection otherwise unchanged; when no entry is
eligible and the length is below MaxConnsPerAddr, a dial happens and, on
success, a fresh entry with load 1 is appended and its handle returned. -/
theorem c3_selection_algorithm (cfg : PoolConfig) (now : Nat) (dialOk : Bool)
    (nextId : Nat) (isStream : Bool) (conns : List ConnInfo) :
    getConnList cfg now dialOk nextId isStream conns =
      (match firstEligibleOffset cfg conns (now % conns.length) with
       | some j =>
           let idx := (now % conns.length + j) % conns.length
           let c := conns.getD idx default
           (GetConnResult.ok c.connId,
            conns.set idx { c with lastUsed := (now : Int), load := c.load + 1 }, nextId)
       | none =>
           if (conns.length : Int) < cfg.maxConnsPerAddr then
             if dialOk then
               (GetConnResult.ok nextId, conns ++ [freshConn now nextId isStream],
                nextId + 1)
             else (GetConnResult.dialFailed, conns, nextId)
           else (GetConnResult.poolExhausted, conns, nextId)) ∧
    (freshConn now nextId isStream).load = 1 := by
  refine ⟨?_, rfl⟩
  rw [getConnList_eq, scanStart_eq]
  cases hfe : firstEligibleOffset cfg conns (now % conns.length) with
  | some j => rfl
  | none => rfl

/-- C2: GetConn fails with PoolExhausted exactly when the mode's collection
already holds MaxConnsPerAddr entries and none of them is Ready with load
below MaxLoadPerConn; the failure leaves the collection unchanged; and in
the MaxConnsPerAddr = 1, MaxLoadPerConn = 1 configuration a second acquire
on the same address while the first holder has not released fails with
PoolExhausted leaving the whole state unchanged. -/
theorem c2_pool_exhausted (cfg : PoolConfig) (s : PoolState) (addr : String) (m : Bool)
    (now : Nat) (dialOk : Bool) (hps : s.pools ≠ none)
    (hlen : (collLen s addr m : Int) ≤ cfg.maxConnsPerAddr) :
    ((getConn cfg s addr m now dialOk).1 = GetConnResult.poolExhausted ↔
      ((collLen s addr m : Int) = cfg.maxConnsPerAddr ∧
        ∀ c ∈ collConns s addr m,
          ¬(c.connState = ConnState.ready ∧ c.load < cfg.maxLoadPerConn))) ∧
    ((getConn cfg s addr m now dialOk).1 = GetConnResult.poolExhausted →
      collConns (getConn cfg s addr m now dialOk).2 addr m = collConns s addr m) ∧
    (getConn cfgSat (runTrace cfgSat [PoolOp.acquire "a" false 7 true]) "a" false 11 true
      = (GetConnResult.poolExhausted,
         runTrace cfgSat [PoolOp.acquire "a" false 7 true])) := by
  cases hps2 : s.pools with
  | none => exact absurd hps2 hps
  | some ps =>
      obtain ⟨h1, h2, h3, h4, h5⟩ := getConn_bridge cfg s addr m now dialOk hps2
      simp only [collLen] at hlen ⊢
      refine ⟨?_, ?_, ?_⟩
      · rw [h1, getConnList_exhausted_iff]
        constructor
        · rintro ⟨ha, hb⟩
          refine ⟨by omega, ?_⟩
          intro c hc
          exact (eligible_eq_false_iff cfg c).1 (ha c hc)
        · rintro ⟨ha, hb⟩
          refine ⟨fun c hc => (eligible_eq_false_iff cfg c).2 (hb c hc), by omega⟩
      · intro hex
        rw [h1] at hex
        have hu := getConnList_exhausted_unchanged cfg now dialOk s.nextConnId m
          (collConns s addr m) hex
        rw [h2, hu]
      · decide

/-- C2 witness: in the saturating configuration the second acquire on the
already-checked-out address indeed reports pool exhaustion. -/
theorem c2_pool_exhausted_witness :
    (getConn cfgSat (runTrace cfgSat [PoolOp.acquire "a" false 7 true]) "a" false
      11 true).1 = GetConnResult.poolExhausted :=
  (c2_pool_exhausted cfgSat (runTrace cfgSat [PoolOp.acquire "a" false 7 true]) "a"
    false 11 true (by decide) (by decide)).1.mpr (by decide)

/-- C9: after Close has completed the top-level map is nil, and any
subsequent GetConn runs into the nil-map assignment fault (modelled as the
`panicked` outcome) instead of returning an error. -/
theorem c9_acquire_after_close_panics (cfg : PoolConfig) (s : PoolState)
    (f : Nat → Bool) (addr : String) (m : Bool) (now : Nat) (dialOk : Bool) :
    (closeState s f).2.pools = none ∧
    getConn cfg (closeState s f).2 addr m now dialOk =
      (GetConnResult.panicked, (closeState s f).2) := by
  exact ⟨rfl, rfl⟩

/-- C10: a selected entry has its lastUsed stamped with the acquisition
instant in the same step that increments its load (and a created entry is
stamped at creation), so the sweep's idle condition now - lastUsed >
ConnMaxIdleTime cannot hold at any sweep at or before t + ConnMaxIdleTime
when the last acquisition happened at t. -/
theorem c10_lastused_refresh (cfg : PoolConfig) (now : Nat) (dialOk : Bool)
    (nextId : Nat) (isStream : Bool) (conns : List ConnInfo) (idx : Nat)
    (hsel : scanStart cfg conns (now % conns.length) = some idx) :
    ((getConnList cfg now dialOk nextId isStream conns).2.1 =
      conns.set idx (touchConn now (conns.getD idx default))) ∧
    (freshConn now nextId isStream).lastUsed = (now : Int) ∧
    (freshConn now nextId isStream).createdAt = (now : Int) ∧
    (∀ (e : ConnInfo) (t : Nat) (nowS : Int), e.lastUsed = (t : Int) →
      nowS ≤ (t : Int) + cfg.connMaxIdleTime → idleTimedOut cfg nowS e = false) := by
  refine ⟨?_, rfl, rfl, ?_⟩
  · rw [getConnList_eq, hsel]
    rfl
  · intro e t nowS he hle
    rw [idleTimedOut, he]
    simp only [decide_eq_false_iff_not]
    omega

theorem swapRemove_nil (A : List ConnInfo) (c : ConnInfo) :
    ((A ++ [c]).set A.length ((A ++ [c]).getLastD default)).dropLast = A := by
  have h1 : (A ++ [c]).getLastD default = c := by
    simp [List.getLastD_eq_getLast?, List.getLast?_concat]
  rw [h1]
  have h2 : (A ++ [c]).set A.length c = A ++ [c] := by
    simp [List.set_append]
  rw [h2, List.dropLast_concat]

theorem swapRemove_concat (A B' : List ConnInfo) (c b : ConnInfo) :
    ((A ++ c :: (B' ++ [b])).set A.length
        ((A ++ c :: (B' ++ [b])).getLastD default)).dropLast = A ++ b :: B' := by
  have h1 : (A ++ c :: (B' ++ [b])).getLastD default = b := by
    have hassoc : A ++ c :: (B' ++ [b]) = (A ++ c :: B') ++ [b] := by
      rw [List.append_assoc, List.cons_append]
    rw [hassoc, List.getLastD_eq_getLast?, List.getLast?_concat]
    rfl
  rw [h1]
  have h2 : (A ++ c :: (B' ++ [b])).set A.length b = A ++ b :: (B' ++ [b]) := by
    simp [List.set_append]
  rw [h2]
  have h3 : A ++ b :: (B' ++ [b]) = (A ++ b :: B') ++ [b] := by
    rw [List.append_assoc, List.cons_append]
  rw [h3, List.dropLast_concat]

theorem filter_cons_append_perm {α : Type _} (p : α → Bool) (b : α) (B' : List α) :
    (List.filter p (b :: B')).Perm (List.filter p B' ++ List.filter p [b]) := by
  rw [List.filter_cons]
  by_cases hb : p b = true
  · rw [if_pos hb]
    have hfb : List.filter p [b] = [b] := by simp [hb]
    rw [hfb]
    exact (List.perm_append_singleton b (List.filter p B')).symm
  · rw [if_neg hb]
    have hfb : List.filter p [b] = [] := by simp [hb]
    rw [hfb, List.append_nil]

theorem sweepLoopAux_spec (cfg : PoolConfig) (now : Int) :
    ∀ fuel conns i, conns.length ≤ i + fuel →
      ((sweepLoopAux cfg now conns i fuel).1).Perm
          (conns.take i ++ (conns.drop i).filter (fun c => !shouldEvict cfg now c)) ∧
      ((sweepLoopAux cfg now conns i fuel).2).Perm
          (((conns.drop i).filter (fun c => shouldEvict cfg now c)).map
            (fun c => c.connId)) := by
  intro fuel
  induction fuel with
  | zero =>
      intro conns i h
      simp only [Nat.add_zero] at h
      constructor
      · simp only [sweepLoopAux, List.take_of_length_le h, List.drop_eq_nil_of_le h,
          List.filter_nil, List.append_nil]
        exact List.Perm.refl _
      · simp only [sweepLoopAux, List.drop_eq_nil_of_le h, List.filter_nil, List.map_nil]
        exact List.Perm.refl _
  | succ fuel ih =>
      intro conns i h
      have hunfold : sweepLoopAux cfg now conns i (fuel + 1) =
          (if i < conns.length then
            (if shouldEvict cfg now (conns.getD i default) then
              ((sweepLoopAux cfg now
                  ((conns.set i (conns.getLastD default)).dropLast) i fuel).1,
               (conns.getD i default).connId ::
                 (sweepLoopAux cfg now
                   ((conns.set i (conns.getLastD default)).dropLast) i fuel).2)
             else sweepLoopAux cfg now conns (i + 1) fuel)
           else (conns, [])) := rfl
      rw [hunfold]
      by_cases hi : i < conns.length
      · rw [if_pos hi]
        obtain ⟨A, hAdef⟩ : ∃ A, conns.take i = A := ⟨_, rfl⟩
        obtain ⟨B, hBdef⟩ : ∃ B, conns.drop (i + 1) = B := ⟨_, rfl⟩
        obtain ⟨c, hcdef⟩ : ∃ c, conns.getD i default = c := ⟨_, rfl⟩
        have hlenA : A.length = i := by
          rw [← hAdef, List.length_take]
          omega
        have hconns : conns = A ++ c :: B := by
          rw [← hAdef, ← hBdef, ← hcdef, getD_of_lt _ _ hi, ← List.drop_eq_getElem_cons hi,
            List.take_append_drop]
        have htake : conns.take i = A := hAdef
        have hdrop : conns.drop i = c :: B := by
          rw [← hcdef, ← hBdef, getD_of_lt _ _ hi]
          exact List.drop_eq_getElem_cons hi
        have hlen : conns.length = A.length + B.length + 1 := by
          rw [hconns]
          simp
          omega
        rw [hcdef, htake, hdrop]
        by_cases he : shouldEvict cfg now c = true
        · rw [if_pos he]
          have hkeepc : (!shouldEvict cfg now c) = false := by simp [he]
          rcases List.eq_nil_or_concat B with hB | ⟨B', b, hB⟩
          · subst hB
            have hswap : (conns.set i (conns.getLastD default)).dropLast = A := by
              conv_lhs => rw [hconns, ← hlenA]
              exact swapRemove_nil A c
            rw [hswap]
            have hihA := ih A i (by omega)
            have htakeA : A.take i = A := List.take_of_length_le (by omega)
            have hdropA : A.drop i = [] := List.drop_eq_nil_of_le (by omega)
            rw [htakeA, hdropA] at hihA
            simp only [List.filter_nil, List.append_nil, List.map_nil] at hihA
            constructor
            · have hfc : List.filter (fun x => !shouldEvict cfg now x) [c] = [] := by
                simp [he]
              rw [hfc, List.append_nil]
              exact hihA.1
            · have hfc : List.filter (fun x => shouldEvict cfg now x) [c] = [c] := by
                simp [he]
              rw [hfc]
              have hnil : (sweepLoopAux cfg now A i fuel).2 = [] :=
                List.perm_nil.1 hihA.2
              rw [hnil]
              exact List.Perm.refl _
          · rw [List.concat_eq_append] at hB
            subst hB
            have hswap : (conns.set i (conns.getLastD default)).dropLast = A ++ b :: B' := by
              conv_lhs => rw [hconns, ← hlenA]
              exact swapRemove_concat A B' c b
            rw [hswap]
            have hih2 := ih (A ++ b :: B') i (by
              have : (A ++ b :: B').length = A.length + B'.length + 1 := by
                simp
                omega
              simp at hlen
              omega)
            have htake2 : (A ++ b :: B').take i = A := by
              rw [← hlenA]
              exact List.take_left A (b :: B')
            have hdrop2 : (A ++ b :: B').drop i = b :: B' := by
              rw [← hlenA]
              exact List.drop_left A (b :: B')
            rw [htake2, hdrop2] at hih2
            constructor
            · have hfil : List.filter (fun x => !shouldEvict cfg now x) (c :: (B' ++ [b]))
                  = List.filter (fun x => !shouldEvict cfg now x) (B' ++ [b]) := by
                simp [List.filter_cons, he]
              rw [hfil, List.filter_append]
              exact hih2.1.trans
                (List.Perm.append_left A (filter_cons_append_perm _ b B'))
            · have hfil : List.filter (fun x => shouldEvict cfg now x) (c :: (B' ++ [b]))
                  = c :: List.filter (fun x => shouldEvict cfg now x) (B' ++ [b]) := by
                simp [List.filter_cons, he]
              rw [hfil, List.map_cons, List.filter_append]
              exact List.Perm.cons _
                (hih2.2.trans (List.Perm.map _ (filter_cons_append_perm _ b B')))
        · rw [if_neg he]
          have hkeepc : (!shouldEvict cfg now c) = true := by
            revert he
            cases shouldEvict cfg now c <;> simp
          have hih2 := ih conns (i + 1) (by omega)
          have htake3 : conns.take (i + 1) = A ++ [c] := by
            rw [List.take_succ, htake, List.getElem?_eq_getElem hi, ← getD_of_lt _ _ hi,
              hcdef]
            rfl
          rw [htake3, hBdef] at hih2
          constructor
          · have h1 := hih2.1
            rw [List.append_assoc] at h1
            have hfil : List.filter (fun x => !shouldEvict cfg now x) (c :: B)
                = c :: List.filter (fun x => !shouldEvict cfg now x) B := by
              simp [List.filter_cons, hkeepc]
            rw [hfil]
            exact h1
          · have hfil : List.filter (fun x => shouldEvict cfg now x) (c :: B)
              = List.filter (fun x => shouldEvict cfg now x) B := by
              simp [List.filter_cons, he]
            rw [hfil]
            exact hih2.2
      · rw [if_neg hi]
        have hge : conns.length ≤ i := by omega
        constructor
        · simp only [List.take_of_length_le hge, List.drop_eq_nil_of_le hge,
            List.filter_nil, List.append_nil]
          exact List.Perm.refl _
        · simp only [List.drop_eq_nil_of_le hge, List.filter_nil, List.map_nil]
          exact List.Perm.refl _

theorem sweepConns_spec (cfg : PoolConfig) (now : Int) (conns : List ConnInfo) :
    ((sweepConns cfg now conns).1).Perm
        (conns.filter (fun c => !shouldEvict cfg now c)) ∧
    ((sweepConns cfg now conns).2).Perm
        ((conns.filter (fun c => shouldEvict cfg now c)).map (fun c => c.connId)) := by
  have h := sweepLoopAux_spec cfg now conns.length conns 0 (by omega)
  simpa [sweepConns] using h

theorem lookupPool_map (g : AddressPool → AddressPool)
    (ps : List (String × AddressPool)) (b : String) :
    lookupPool (ps.map (fun p => (p.1, g p.2))) b = Option.map g (lookupPool ps b) := by
  induction ps with
  | nil => rfl
  | cons p rest ih =>
      cases p with
      | mk k v => by_cases hk : k = b <;> simp [lookupPool, hk, ih]

/-- C4: one sweep evicts, from each collection, exactly the entries whose
handle reports TransientFailure or Shutdown (regardless of load) together
with the entries whose load is 0 past their idle time or lifetime; entries
with positive load are kept unless broken; the swap-with-last removal makes
the survivors a permutation of the filtered collection, the closed ids are
exactly the evicted ones, and every address's collections are swept this
way. -/
theorem c4_sweep_eviction (cfg : PoolConfig) (now : Int) (ap : AddressPool)
    (s : PoolState) (addr : String) :
    ((sweepPool cfg now ap).1.unaryConns).Perm
        (ap.unaryConns.filter (fun c => !shouldEvict cfg now c)) ∧
    ((sweepPool cfg now ap).1.streamConns).Perm
        (ap.streamConns.filter (fun c => !shouldEvict cfg now c)) ∧
    ((sweepPool cfg now ap).2).Perm
        (((ap.unaryConns.filter (fun c => shouldEvict cfg now c)) ++
          (ap.streamConns.filter (fun c => shouldEvict cfg now c))).map
            (fun c => c.connId)) ∧
    lookupPool ((sweepState cfg now s).pools.getD []) addr =
      Option.map (fun ap2 => (sweepPool cfg now ap2).1)
        (lookupPool (s.pools.getD []) addr) ∧
    (∀ c : ConnInfo, shouldEvict cfg now c =
      (broken c ||
        (c.load == 0 && (idleTimedOut cfg now c || lifetimeExceeded cfg now c)))) := by
  obtain ⟨hu1, hu2⟩ := sweepConns_spec cfg now ap.unaryConns
  obtain ⟨hs1, hs2⟩ := sweepConns_spec cfg now ap.streamConns
  refine ⟨hu1, hs1, ?_, ?_, fun c => rfl⟩
  · rw [List.map_append]
    exact (hu2.append hs2)
  · cases hsp : s.pools with
    | none => simp [sweepState, hsp, lookupPool]
    | some ps =>
        simp only [sweepState, hsp, Option.getD_some]
        exact lookupPool_map (fun ap2 => (sweepPool cfg now ap2).1) ps addr

theorem releaseList_none_iff (cid : Nat) (l : List ConnInfo) :
    releaseList cid l = none ↔ ∀ c ∈ l, c.connId ≠ cid := by
  induction l with
  | nil => simp [releaseList]
  | cons c rest ih =>
      by_cases hc : c.connId = cid
      · simp [releaseList, hc]
      · simp [releaseList, hc, Option.map_eq_none', ih]

theorem releaseList_some_eq (cid : Nat) (l : List ConnInfo)
    (h : ∃ c ∈ l, c.connId = cid) :
    releaseList cid l = some (decFirstLoad cid l) := by
  induction l with
  | nil => simp at h
  | cons c rest ih =>
      by_cases hc : c.connId = cid
      · simp [releaseList, decFirstLoad, hc]
      · have hex2 : ∃ d ∈ rest, d.connId = cid := by
          rcases h with ⟨d, hd, hid⟩
          rcases List.mem_cons.1 hd with hd2 | hd2
          · subst hd2
            exact absurd hid hc
          · exact ⟨d, hd2, hid⟩
        simp [releaseList, decFirstLoad, hc, ih hex2]

theorem decFirstLoad_of_not_mem (cid : Nat) {A : List ConnInfo}
    (h : ∀ c ∈ A, c.connId ≠ cid) : decFirstLoad cid A = A := by
  induction A with
  | nil => rfl
  | cons c rest ih =>
      have hc : c.connId ≠ cid := h c (List.mem_cons_self c rest)
      rw [decFirstLoad, if_neg hc, ih (fun d hd => h d (List.mem_cons_of_mem c hd))]

theorem decFirstLoad_append_left (cid : Nat) {A : List ConnInfo}
    (h : ∃ c ∈ A, c.connId = cid) (B : List ConnInfo) :
    decFirstLoad cid (A ++ B) = decFirstLoad cid A ++ B := by
  induction A with
  | nil => simp at h
  | cons c rest ih =>
      by_cases hc : c.connId = cid
      · simp [decFirstLoad, hc]
      · have hex2 : ∃ d ∈ rest, d.connId = cid := by
          rcases h with ⟨d, hd, hid⟩
          rcases List.mem_cons.1 hd with hd2 | hd2
          · subst hd2
            exact absurd hid hc
          · exact ⟨d, hd2, hid⟩
        simp [decFirstLoad, hc, ih hex2]

theorem decFirstLoad_append_right (cid : Nat) {A : List ConnInfo}
    (h : ∀ c ∈ A, c.connId ≠ cid) (B : List ConnInfo) :
    decFirstLoad cid (A ++ B) = A ++ decFirstLoad cid B := by
  induction A with
  | nil => rfl
  | cons c rest ih =>
      have hc : c.connId ≠ cid := h c (List.mem_cons_self c rest)
      simp only [List.cons_append, decFirstLoad, if_neg hc]
      exact congrArg (fun l => c :: l) (ih (fun d hd => h d (List.mem_cons_of_mem c hd)))

theorem decFirstLoad_map_eraseLoad (cid : Nat) (l : List ConnInfo) :
    (decFirstLoad cid l).map eraseLoad = l.map eraseLoad := by
  induction l with
  | nil => rfl
  | cons c rest ih =>
      by_cases hc : c.connId = cid
      · simp [decFirstLoad, hc, eraseLoad]
      · simp [decFirstLoad, hc, ih]

theorem decFirstLoad_length (cid : Nat) (l : List ConnInfo) :
    (decFirstLoad cid l).length = l.length := by
  induction l with
  | nil => rfl
  | cons c rest ih =>
      by_cases hc : c.connId = cid
      · simp [decFirstLoad, hc]
      · simp [decFirstLoad, hc, ih]

theorem releaseInPool_cases (cid : Nat) (ap : AddressPool) :
    (releaseInPool cid ap = none ∧ ∀ c ∈ poolAllConns ap, c.connId ≠ cid) ∨
    (∃ ap2, releaseInPool cid ap = some ap2 ∧
      poolAllConns ap2 = decFirstLoad cid (poolAllConns ap) ∧
      ap2.address = ap.address ∧
      ap2.unaryConns.map eraseLoad = ap.unaryConns.map eraseLoad ∧
      ap2.streamConns.map eraseLoad = ap.streamConns.map eraseLoad ∧
      (∃ c ∈ poolAllConns ap, c.connId = cid)) := by
  by_cases hu : ∃ c ∈ ap.unaryConns, c.connId = cid
  · refine Or.inr ⟨{ ap with unaryConns := decFirstLoad cid ap.unaryConns }, ?_, ?_, rfl,
      ?_, rfl, ?_⟩
    · rw [releaseInPool, releaseList_some_eq cid ap.unaryConns hu]
    · rw [poolAllConns, poolAllConns]
      exact (decFirstLoad_append_left cid hu ap.streamConns).symm
    · exact decFirstLoad_map_eraseLoad cid ap.unaryConns
    · rcases hu with ⟨c, hc, hid⟩
      exact ⟨c, List.mem_append_left _ hc, hid⟩
  · have hu2 : ∀ c ∈ ap.unaryConns, c.connId ≠ cid := by
      intro c hc
      exact fun hid => hu ⟨c, hc, hid⟩
    have hun : releaseList cid ap.unaryConns = none := (releaseList_none_iff cid _).2 hu2
    by_cases hs : ∃ c ∈ ap.streamConns, c.connId = cid
    · refine Or.inr ⟨{ ap with streamConns := decFirstLoad cid ap.streamConns }, ?_, ?_,
        rfl, rfl, ?_, ?_⟩
      · rw [releaseInPool, hun, releaseList_some_eq cid ap.streamConns hs]
      · rw [poolAllConns, poolAllConns]
        exact (decFirstLoad_append_right cid hu2 ap.streamConns).symm
      · exact decFirstLoad_map_eraseLoad cid ap.streamConns
      · rcases hs with ⟨c, hc, hid⟩
        exact ⟨c, List.mem_append_right _ hc, hid⟩
    · have hs2 : ∀ c ∈ ap.streamConns, c.connId ≠ cid := by
        intro c hc
        exact fun hid => hs ⟨c, hc, hid⟩
      have hsn : releaseList cid ap.streamConns = none := (releaseList_none_iff cid _).2 hs2
      refine Or.inl ⟨?_, ?_⟩
      · rw [releaseInPool, hun, hsn]
      · intro c hc
        rcases List.mem_append.1 hc with hc2 | hc2
        · exact hu2 c hc2
        · exact hs2 c hc2

theorem releasePools_spec (cid : Nat) (ps : List (String × AddressPool)) :
    joinPools (releasePools cid ps) = decFirstLoad cid (joinPools ps) ∧
    (releasePools cid ps).map (fun p => (p.1, p.2.address,
        p.2.unaryConns.map eraseLoad, p.2.streamConns.map eraseLoad)) =
      ps.map (fun p => (p.1, p.2.address,
        p.2.unaryConns.map eraseLoad, p.2.streamConns.map eraseLoad)) ∧
    ((∀ c ∈ joinPools ps, c.connId ≠ cid) → releasePools cid ps = ps) := by
  induction ps with
  | nil => exact ⟨rfl, rfl, fun _ => rfl⟩
  | cons p rest ih =>
      cases p with
      | mk a ap =>
          rcases releaseInPool_cases cid ap with ⟨hnone, hno⟩ | ⟨ap2, hsome, hall, haddr,
            hmu, hms, hex⟩
          · have hrel : releasePools cid ((a, ap) :: rest) = (a, ap) :: releasePools cid rest := by
              rw [releasePools, hnone]
            refine ⟨?_, ?_, ?_⟩
            · rw [hrel, joinPools_cons, joinPools_cons, ih.1,
                decFirstLoad_append_right cid hno]
            · rw [hrel, List.map_cons, List.map_cons, ih.2.1]
            · intro h
              rw [hrel, ih.2.2]
              intro c hc
              exact h c (by rw [joinPools_cons]; exact List.mem_append_right _ hc)
          · have hrel : releasePools cid ((a, ap) :: rest) = (a, ap2) :: rest := by
              rw [releasePools, hsome]
            refine ⟨?_, ?_, ?_⟩
            · rw [hrel, joinPools_cons, joinPools_cons, hall,
                decFirstLoad_append_left cid hex]
            · rw [hrel, List.map_cons, List.map_cons, haddr, hmu, hms]
            · intro h
              exfalso
              rcases hex with ⟨c, hc, hid⟩
              exact h c (by rw [joinPools_cons]; exact List.mem_append_left _ hc) hid

/-- C6: ReleaseConn decrements by exactly one the load of the first matching
entry in search order (pools in map order, request-response before
streaming), changes nothing else (no entry added, removed or closed, no
other field touched), silently leaves the whole state unchanged when no
entry matches, and — being modelled as a total function into states — never
returns an error. -/
theorem c6_release_semantics (s : PoolState) (cid : Nat) :
    allConns (releaseConn s cid) = decFirstLoad cid (allConns s) ∧
    (releaseConn s cid).closedConns = s.closedConns ∧
    (releaseConn s cid).nextConnId = s.nextConnId ∧
    poolsShape (releaseConn s cid) = poolsShape s ∧
    ((∀ c ∈ allConns s, c.connId ≠ cid) → releaseConn s cid = s) ∧
    (∀ l : List ConnInfo, (decFirstLoad cid l).length = l.length) := by
  cases hsp : s.pools with
  | none =>
      have hrc : releaseConn s cid = s := by
        rw [releaseConn, hsp]
      have hall : allConns s = [] := by
        rw [allConns, hsp]
        rfl
      refine ⟨?_, ?_, ?_, ?_, ?_, fun l => decFirstLoad_length cid l⟩ <;>
        simp [hrc, hall, decFirstLoad]
  | some ps =>
      obtain ⟨h1, h2, h3⟩ := releasePools_spec cid ps
      have hrc : releaseConn s cid = { s with pools := some (releasePools cid ps) } := by
        rw [releaseConn, hsp]
      have hall : allConns s = joinPools ps := by
        rw [allConns, hsp]
        rfl
      refine ⟨?_, ?_, ?_, ?_, ?_, fun l => decFirstLoad_length cid l⟩
      · rw [hrc, hall, allConns]
        exact h1
      · rw [hrc]
      · rw [hrc]
      · rw [hrc, poolsShape, poolsShape, hsp]
        simp only [Option.map_some']
        rw [h2]
      · intro h
        rw [hall] at h
        rw [hrc, h3 h, ← hsp]

/-- C6 witness: releasing the held handle decrements exactly its entry's
load, and releasing an unknown handle leaves the pool untouched. -/
theorem c6_release_semantics_witness :
    allConns (releaseConn sStats 0) = decFirstLoad 0 (allConns sStats) ∧
    releaseConn sStats 99 = sStats :=
  ⟨(c6_release_semantics sStats 0).1,
   (c6_release_semantics sStats 99).2.2.2.2.1 (by decide)⟩

theorem statsForList_foldl (conns : List ConnInfo) :
    ∀ acc : StatCounters, conns.foldl statsAdd acc =
      { totalConnections := acc.totalConnections,
        readyConnections := acc.readyConnections +
          conns.countP (fun c => c.connState == ConnState.ready),
        idleConnections := acc.idleConnections +
          conns.countP (fun c => c.connState == ConnState.ready && c.load == 0),
        failedConnections := acc.failedConnections + conns.countP (fun c => broken c),
        totalLoad := acc.totalLoad + (conns.map (fun c => c.load)).sum } := by
  induction conns with
  | nil =>
      intro acc
      simp [List.countP_nil]
  | cons c rest ih =>
      intro acc
      rw [List.foldl_cons, ih (statsAdd acc c)]
      cases hst : c.connState <;>
        by_cases hl : (c.load == 0) = true <;>
          simp [statsAdd, hst, hl, List.countP_cons, broken, StatCounters.mk.injEq,
            beq_iff_eq] <;>
            omega

theorem statsForList_spec (conns : List ConnInfo) :
    statsForList conns = specCounters conns := by
  rw [statsForList, statsForList_foldl]
  simp [specCounters]

theorem specCounters_append (A B : List ConnInfo) :
    specCounters (A ++ B) = countersAdd (specCounters A) (specCounters B) := by
  simp [specCounters, countersAdd, List.countP_append, List.length_append,
    List.map_append, List.sum_append]

theorem specCounters_nil : specCounters [] = countersZero := by
  simp [specCounters, countersZero]

theorem countersAdd_zero_right (x : StatCounters) : countersAdd x countersZero = x := by
  simp [countersAdd, countersZero]

theorem countersAdd_assoc (x y z : StatCounters) :
    countersAdd (countersAdd x y) z = countersAdd x (countersAdd y z) := by
  simp [countersAdd, StatCounters.mk.injEq]
  refine ⟨by omega, by omega, by omega, by omega, by omega⟩

theorem statsMode_go (pick : AddressPool → List ConnInfo) :
    ∀ (ps : List (String × AddressPool)) (acc : ModeStats),
    (ps.foldl (fun acc p =>
      let a := statsForList (pick p.2)
      { byAddress := acc.byAddress ++ [(p.1, a)], total := countersAdd acc.total a })
        acc) =
      { byAddress := acc.byAddress ++ ps.map (fun p => (p.1, specCounters (pick p.2))),
        total := countersAdd acc.total
          (specCounters ((ps.map (fun p => pick p.2)).foldr (fun a b => a ++ b) [])) } := by
  intro ps
  induction ps with
  | nil =>
      intro acc
      simp [specCounters_nil, countersAdd_zero_right]
  | cons p rest ih =>
      intro acc
      rw [List.foldl_cons, ih]
      simp only [statsForList_spec, List.map_cons, List.foldr_cons, ModeStats.mk.injEq]
      constructor
      · rw [List.append_assoc]
        rfl
      · rw [specCounters_append, ← countersAdd_assoc]

theorem statsMode_spec (pick : AddressPool → List ConnInfo)
    (ps : List (String × AddressPool)) :
    (statsMode ps pick).byAddress = ps.map (fun p => (p.1, specCounters (pick p.2))) ∧
    (statsMode ps pick).total =
      specCounters ((ps.map (fun p => pick p.2)).foldr (fun a b => a ++ b) []) := by
  rw [statsMode, statsMode_go]
  constructor
  · simp
  · simp [countersAdd, countersZero]

/-- C8: Stats reports, per mode, per address and in aggregate, exactly:
total = entry count, ready = entries whose handle is Ready, idle = Ready
entries with load 0, failed = entries in TransientFailure or Shutdown, and
total_load = sum of loads; in particular one address with two Ready entries
carrying loads one and zero yields total 2, ready 2, idle 1, failed 0 and
total load 1. -/
theorem c8_stats_correct (s : PoolState) :
    (stats s).1.byAddress = (s.pools.getD []).map
        (fun p => (p.1, specCounters p.2.unaryConns)) ∧
    (stats s).1.total = specCounters
        (((s.pools.getD []).map (fun p => p.2.unaryConns)).foldr
          (fun a b => a ++ b) []) ∧
    (stats s).2.byAddress = (s.pools.getD []).map
        (fun p => (p.1, specCounters p.2.streamConns)) ∧
    (stats s).2.total = specCounters
        (((s.pools.getD []).map (fun p => p.2.streamConns)).foldr
          (fun a b => a ++ b) []) ∧
    (∀ conns, statsForList conns = specCounters conns) ∧
    (stats sStats).1.total = countersScenario := by
  obtain ⟨hu1, hu2⟩ := statsMode_spec (fun ap => ap.unaryConns) (s.pools.getD [])
  obtain ⟨hs1, hs2⟩ := statsMode_spec (fun ap => ap.streamConns) (s.pools.getD [])
  exact ⟨hu1, hu2, hs1, hs2, statsForList_spec, by decide⟩

/-- C7: CloseAddress removes the AddressPool from the map and closes every
entry's handle; a second CloseAddress on the same address finds no
AddressPool and returns nil leaving the state unchanged; and a subsequent
GetConn for the address works on a fresh empty AddressPool (its resulting
collection is the one a selection over the empty collection produces)
rather than reusing the removed one. -/
theorem c7_close_address_idempotent (s : PoolState) (addr : String)
    (f f2 : Nat → Bool) (cfg : PoolConfig) (m : Bool) (now : Nat) (dialOk : Bool)
    (hk : keysNodup s) :
    lookupPool ((closeAddress s addr f).2.pools.getD []) addr = none ∧
    closeAddress (closeAddress s addr f).2 addr f2 = (none, (closeAddress s addr f).2) ∧
    (closeAddress s addr f).2.closedConns = s.closedConns ++
      ((lookupPool (s.pools.getD []) addr).map
        (fun ap => (poolAllConns ap).map (fun c => c.connId))).getD [] ∧
    (∀ ps, s.pools = some ps →
      collConns (getConn cfg (closeAddress s addr f).2 addr m now dialOk).2 addr m =
        (getConnList cfg now dialOk s.nextConnId m []).2.1) := by
  cases hsp : s.pools with
  | none =>
      have hca : closeAddress s addr f = (none, s) := by
        rw [closeAddress, hsp]
      refine ⟨?_, ?_, ?_, ?_⟩
      · rw [hca]
        simp [hsp, lookupPool]
      · rw [hca]
        rw [closeAddress, hsp]
      · rw [hca]
        simp [hsp, lookupPool]
      · intro ps hps
        exact Option.noConfusion hps
  | some ps =>
      cases hlk : lookupPool ps addr with
      | none =>
          have hca : closeAddress s addr f = (none, s) := by
            rw [closeAddress, hsp]
            simp only [hlk]
          refine ⟨?_, ?_, ?_, ?_⟩
          · rw [hca]
            simp [hsp, hlk]
          · rw [hca, closeAddress, hsp]
            simp only [hlk]
          · rw [hca]
            simp [hsp, hlk]
          · intro ps2 hps2
            injection hps2 with hps2
            subst hps2
            rw [hca]
            have hcoll : collConns s addr m = [] := by
              rw [collConns, hsp]
              simp only [hlk]
            obtain ⟨h1, h2, h3, h4, h5⟩ := getConn_bridge cfg s addr m now dialOk hsp
            rw [h2, hcoll]
      | some pool =>
          have hk2 : (ps.map Prod.fst).Nodup := by
            rw [keysNodup, hsp] at hk
            exact hk
          have hca : closeAddress s addr f =
              (closeConnsErr f none (poolAllConns pool),
               { s with pools := some (removePool ps addr),
                        closedConns := s.closedConns ++
                          (poolAllConns pool).map (fun c => c.connId) }) := by
            rw [closeAddress, hsp]
            simp only [hlk]
          have hlknone : lookupPool (removePool ps addr) addr = none :=
            lookupPool_removePool_self hk2
          refine ⟨?_, ?_, ?_, ?_⟩
          · rw [hca]
            exact hlknone
          · rw [hca, closeAddress]
            simp only [hlknone]
          · rw [hca]
            simp [hsp, hlk]
          · intro ps2 hps2
            have hps1 : (closeAddress s addr f).2.pools = some (removePool ps addr) := by
              rw [hca]
            have hcoll1 : collConns (closeAddress s addr f).2 addr m = [] := by
              rw [collConns, hps1]
              simp only [hlknone]
            have hnid : (closeAddress s addr f).2.nextConnId = s.nextConnId := by
              rw [hca]
            obtain ⟨h1, h2, h3, h4, h5⟩ :=
              getConn_bridge cfg (closeAddress s addr f).2 addr m now dialOk hps1
            rw [h2, hcoll1, hnid]

/-- C7 witness: closing the only address twice returns nil the second time
with nothing changed, and the next acquire builds its collection from
scratch. -/
theorem c7_close_address_idempotent_witness :
    closeAddress (closeAddress sStats "a" (fun _ => false)).2 "a" (fun _ => false)
      = (none, (closeAddress sStats "a" (fun _ => false)).2) ∧
    collConns (getConn cfgTen (closeAddress sStats "a" (fun _ => false)).2 "a" false 3
        true).2 "a" false = (getConnList cfgTen 3 true sStats.nextConnId false []).2.1 := by
  have h := c7_close_address_idempotent sStats "a" (fun _ => false) (fun _ => false)
    cfgTen false 3 true (by simp only [keysNodup]; decide)
  exact ⟨h.2.1, h.2.2.2 _ rfl⟩

/-- C10 witness: acquiring the idle ready entry at instant 5 refreshes its
lastUsed to 5, and a sweep at instant 90 (within the idle budget 100) does
not see it as idle-expired. -/
theorem c10_lastused_refresh_witness :
    ((getConnList cfgTen 5 true 7 false [entryR0]).2.1 =
      [{ entryR0 with lastUsed := (5 : Int), load := 1 }]) ∧
    idleTimedOut cfgTen 90 { entryR0 with lastUsed := (5 : Int), load := 1 } = false := by
  have h := c10_lastused_refresh cfgTen 5 true 7 false [entryR0] 0 (by decide)
  refine ⟨h.1.trans (by decide), ?_⟩
  exact h.2.2.2 _ 5 90 (by decide) (by decide)

theorem collLen_eq_lookup (s : PoolState) {ps : List (String × AddressPool)}
    (hps : s.pools = some ps) (a : String) (m : Bool) :
    collLen s a m =
      ((lookupPool ps a).map (fun ap => (modeConns ap m).length)).getD 0 := by
  rw [collLen, collConns, hps]
  cases hlk : lookupPool ps a <;> simp [hlk]

theorem sweepConns_len_le (cfg : PoolConfig) (now : Int) (conns : List ConnInfo) :
    (sweepConns cfg now conns).1.length ≤ conns.length := by
  have h := (sweepConns_spec cfg now conns).1
  rw [h.length_eq]
  exact List.length_filter_le _ _

theorem lookupPool_releasePools_len (cid : Nat) (ps : List (String × AddressPool))
    (a : String) (m : Bool) :
    Option.map (fun ap => (modeConns ap m).length) (lookupPool (releasePools cid ps) a) =
      Option.map (fun ap => (modeConns ap m).length) (lookupPool ps a) := by
  induction ps with
  | nil => rfl
  | cons p rest ih =>
      cases p with
      | mk k ap =>
          rcases releaseInPool_cases cid ap with ⟨hnone, _⟩ |
            ⟨ap2, hsome, _, _, hmu, hms, _⟩
          · have hrel : releasePools cid ((k, ap) :: rest) =
                (k, ap) :: releasePools cid rest := by
              rw [releasePools, hnone]
            rw [hrel]
            by_cases hk : k = a
            · simp [lookupPool, hk]
            · simp [lookupPool, hk, ih]
          · have hrel : releasePools cid ((k, ap) :: rest) = (k, ap2) :: rest := by
              rw [releasePools, hsome]
            rw [hrel]
            by_cases hk : k = a
            · have hlen : (modeConns ap2 m).length = (modeConns ap m).length := by
                cases m
                · have h2 := congrArg List.length hmu
                  simpa [modeConns] using h2
                · have h2 := congrArg List.length hms
                  simpa [modeConns] using h2
              simp [lookupPool, hk, hlen]
            · simp [lookupPool, hk]

theorem collLen_release (s : PoolState) (cid : Nat) (a : String) (m : Bool) :
    collLen (releaseConn s cid) a m = collLen s a m := by
  cases hsp : s.pools with
  | none =>
      have hrc : releaseConn s cid = s := by
        rw [releaseConn, hsp]
      rw [hrc]
  | some ps =>
      have hrc : (releaseConn s cid).pools = some (releasePools cid ps) := by
        rw [releaseConn, hsp]
      rw [collLen_eq_lookup s hsp, collLen_eq_lookup _ hrc,
        lookupPool_releasePools_len]

theorem collLen_sweep (cfg : PoolConfig) (now : Int) (s : PoolState) (a : String)
    (m : Bool) : collLen (sweepState cfg now s) a m ≤ collLen s a m := by
  cases hsp : s.pools with
  | none =>
      have hsw : sweepState cfg now s = s := by
        rw [sweepState, hsp]
      rw [hsw]
  | some ps =>
      have hsw : (sweepState cfg now s).pools =
          some (ps.map (fun p => (p.1, (sweepPool cfg now p.2).1))) := by
        rw [sweepState, hsp]
      rw [collLen_eq_lookup s hsp, collLen_eq_lookup _ hsw,
        lookupPool_map (fun ap2 => (sweepPool cfg now ap2).1) ps a]
      cases hlk : lookupPool ps a with
      | none => simp
      | some ap =>
          simp only [hlk, Option.map_some', Option.getD_some]
          cases m
          · exact sweepConns_len_le cfg now ap.unaryConns
          · exact sweepConns_len_le cfg now ap.streamConns

theorem collLen_closeAddress (s : PoolState) (addr : String) (f : Nat → Bool)
    (a : String) (m : Bool) (hk : keysNodup s) :
    collLen (closeAddress s addr f).2 a m ≤ collLen s a m := by
  cases hsp : s.pools with
  | none =>
      have hca : closeAddress s addr f = (none, s) := by
        rw [closeAddress, hsp]
      rw [hca]
  | some ps =>
      cases hlk : lookupPool ps addr with
      | none =>
          have hca : closeAddress s addr f = (none, s) := by
            rw [closeAddress, hsp]
            simp only [hlk]
          rw [hca]
      | some pool =>
          have hca : (closeAddress s addr f).2.pools = some (removePool ps addr) := by
            rw [closeAddress, hsp]
            simp only [hlk]
          rw [collLen_eq_lookup s hsp, collLen_eq_lookup _ hca]
          by_cases ha : a = addr
          · subst ha
            have hk2 : (ps.map Prod.fst).Nodup := by
              rw [keysNodup, hsp] at hk
              exact hk
            rw [lookupPool_removePool_self hk2]
            simp
          · rw [lookupPool_removePool_ne ps ha]

theorem collLen_close (s : PoolState) (f : Nat → Bool) (a : String) (m : Bool) :
    collLen (closeState s f).2 a m = 0 := rfl

theorem collLen_env (s : PoolState) (cid : Nat) (st : ConnState) (a : String)
    (m : Bool) : collLen (envSetState s cid st) a m = collLen s a m := by
  cases hsp : s.pools with
  | none =>
      have he : envSetState s cid st = s := by
        rw [envSetState, hsp]
      rw [he]
  | some ps =>
      have he : (envSetState s cid st).pools = some (ps.map (fun p => (p.1,
          { p.2 with unaryConns := setConnStateList cid st p.2.unaryConns,
                     streamConns := setConnStateList cid st p.2.streamConns }))) := by
        rw [envSetState, hsp]
      rw [collLen_eq_lookup s hsp, collLen_eq_lookup _ he,
        lookupPool_map (fun ap =>
          { ap with unaryConns := setConnStateList cid st ap.unaryConns,
                    streamConns := setConnStateList cid st ap.streamConns }) ps a]
      cases hlk : lookupPool ps a with
      | none => simp
      | some ap =>
          simp only [hlk, Option.map_some', Option.getD_some]
          cases m <;> simp [modeConns, setConnStateList]

theorem getConn_collLen (cfg : PoolConfig) (s : PoolState) (addr : String) (M : Bool)
    (now : Nat) (d : Bool) (a : String) (m : Bool) :
    collLen (getConn cfg s addr M now d).2 a m ≤ collLen s a m + 1 ∧
    (collLen (getConn cfg s addr M now d).2 a m ≠ collLen s a m →
      a = addr ∧ m = M ∧ (collLen s a m : Int) < cfg.maxConnsPerAddr ∧
      collLen (getConn cfg s addr M now d).2 a m = collLen s a m + 1) := by
  cases hsp : s.pools with
  | none =>
      have hg : getConn cfg s addr M now d = (GetConnResult.panicked, s) := by
        rw [getConn, hsp]
      rw [hg]
      exact ⟨Nat.le_succ _, fun hne => absurd rfl hne⟩
  | some ps =>
      obtain ⟨h1, h2, h3, h4, h5⟩ := getConn_bridge cfg s addr M now d hsp
      by_cases hb : a = addr ∧ m = M
      · obtain ⟨ha, hm⟩ := hb
        subst ha
        subst hm
        have hpost : collLen (getConn cfg s a m now d).2 a m =
            (getConnList cfg now d s.nextConnId m (collConns s a m)).2.1.length := by
          rw [collLen, h2]
        have hpre : collLen s a m = (collConns s a m).length := rfl
        rcases getConnList_shape cfg now d s.nextConnId m (collConns s a m) with
          ⟨hlen, _⟩ | ⟨hlist, _, hlt, _⟩
        · rw [hpost, hlen, ← hpre]
          exact ⟨Nat.le_succ _, fun hne => absurd rfl hne⟩
        · rw [hpost, hlist]
          simp only [List.length_append, List.length_cons, List.length_nil]
          rw [← hpre] at hlt ⊢
          exact ⟨by omega, fun _ => ⟨by trivial, by trivial, hlt, by omega⟩⟩
      · have heq : collLen (getConn cfg s addr M now d).2 a m = collLen s a m := by
          rw [collLen, collLen, h3 a m hb]
        rw [heq]
        exact ⟨Nat.le_succ _, fun hne => absurd rfl hne⟩

theorem keys_releasePools (cid : Nat) (ps : List (String × AddressPool)) :
    (releasePools cid ps).map Prod.fst = ps.map Prod.fst := by
  induction ps with
  | nil => rfl
  | cons p rest ih =>
      cases p with
      | mk k ap =>
          rcases releaseInPool_cases cid ap with ⟨hnone, _⟩ | ⟨ap2, hsome, _⟩
          · rw [releasePools, hnone]
            simp [ih]
          · rw [releasePools, hsome]
            simp

theorem step_keysNodup (cfg : PoolConfig) (s : PoolState) (op : PoolOp)
    (hk : keysNodup s) : keysNodup (step cfg s op) := by
  cases op with
  | acquire addr M now d =>
      cases hsp : s.pools with
      | none =>
          have hg : step cfg s (PoolOp.acquire addr M now d) = s := by
            rw [step, getConn, hsp]
          rw [hg]
          exact hk
      | some ps =>
          have hk2 : (ps.map Prod.fst).Nodup := by
            rw [keysNodup, hsp] at hk
            exact hk
          cases hlk : lookupPool ps addr with
          | some pool =>
              rw [keysNodup, step]
              simp only [getConn, hsp, hlk]
              rw [Option.getD_some, keys_setPool_some hlk]
              exact hk2
          | none =>
              rw [keysNodup, step]
              simp only [getConn, hsp, hlk, setPool_append_absent hlk]
              rw [Option.getD_some]
              have haddr : addr ∉ ps.map Prod.fst := (lookupPool_eq_none_iff ps addr).1 hlk
              rw [List.map_append]
              rw [List.nodup_append]
              refine ⟨hk2, by simp, ?_⟩
              intro x hx
              simp only [List.map_cons, List.map_nil, List.mem_singleton]
              intro hxa
              subst hxa
              exact haddr hx
  | release cid =>
      cases hsp : s.pools with
      | none =>
          have hg : step cfg s (PoolOp.release cid) = s := by
            rw [step, releaseConn, hsp]
          rw [hg]
          exact hk
      | some ps =>
          rw [keysNodup, step, releaseConn]
          simp only [hsp, Option.getD_some]
          rw [keys_releasePools]
          rw [keysNodup, hsp] at hk
          exact hk
  | sweep now =>
      cases hsp : s.pools with
      | none =>
          have hg : step cfg s (PoolOp.sweep now) = s := by
            rw [step, sweepState, hsp]
          rw [hg]
          exact hk
      | some ps =>
          rw [keysNodup, step, sweepState]
          simp only [hsp, Option.getD_some, List.map_map]
          rw [keysNodup, hsp] at hk
          simpa using hk
  | closeAddr addr f =>
      cases hsp : s.pools with
      | none =>
          have hg : step cfg s (PoolOp.closeAddr addr f) = s := by
            rw [step, closeAddress, hsp]
          rw [hg]
          exact hk
      | some ps =>
          cases hlk : lookupPool ps addr with
          | none =>
              have hg : step cfg s (PoolOp.closeAddr addr f) = s := by
                rw [step, closeAddress, hsp]
                simp only [hlk]
              rw [hg]
              exact hk
          | some pool =>
              rw [keysNodup, step, closeAddress]
              simp only [hsp, hlk, Option.getD_some]
              rw [keysNodup, hsp] at hk
              exact (keys_removePool_sublist ps addr).nodup hk
  | closeAll f =>
      rw [keysNodup, step, closeState]
      simp
  | envState cid st =>
      cases hsp : s.pools with
      | none =>
          have hg : step cfg s (PoolOp.envState cid st) = s := by
            rw [step, envSetState, hsp]
          rw [hg]
          exact hk
      | some ps =>
          rw [keysNodup, step, envSetState]
          simp only [hsp, Option.getD_some, List.map_map]
          rw [keysNodup, hsp] at hk
          simpa using hk

theorem runTrace_inv (cfg : PoolConfig) (h : 0 ≤ cfg.maxConnsPerAddr) :
    ∀ (ops : List PoolOp) (s : PoolState), keysNodup s →
      (∀ a m, (collLen s a m : Int) ≤ cfg.maxConnsPerAddr) →
      keysNodup (ops.foldl (step cfg) s) ∧
      ∀ a m, (collLen (ops.foldl (step cfg) s) a m : Int) ≤ cfg.maxConnsPerAddr := by
  intro ops
  induction ops with
  | nil =>
      intro s hk hb
      exact ⟨hk, hb⟩
  | cons op rest ih =>
      intro s hk hb
      rw [List.foldl_cons]
      refine ih (step cfg s op) (step_keysNodup cfg s op hk) ?_
      intro a m
      cases op with
      | acquire addr M now d =>
          obtain ⟨hle, hgrow⟩ := getConn_collLen cfg s addr M now d a m
          by_cases hne : collLen (getConn cfg s addr M now d).2 a m = collLen s a m
          · rw [step, hne]
            exact hb a m
          · obtain ⟨_, _, hlt, heq⟩ := hgrow hne
            rw [step, heq]
            push_cast
            omega
      | release cid =>
          rw [step, collLen_release]
          exact hb a m
      | sweep now =>
          have hle := collLen_sweep cfg now s a m
          have hb2 := hb a m
          rw [step]
          have : (collLen (sweepState cfg now s) a m : Int) ≤ (collLen s a m : Int) := by
            exact_mod_cast hle
          omega
      | closeAddr addr f =>
          have hle := collLen_closeAddress s addr f a m hk
          have hb2 := hb a m
          rw [step]
          have : (collLen (closeAddress s addr f).2 a m : Int) ≤
              (collLen s a m : Int) := by
            exact_mod_cast hle
          omega
      | closeAll f =>
          rw [step, collLen_close]
          exact h
      | envState cid st =>
          rw [step, collLen_env]
          exact hb a m

/-- C1: capacity invariant: along every operation sequence from the fresh
pool, every address's per-mode collection holds at most MaxConnsPerAddr
entries; GetConn grows a collection only by one and only when it was
strictly below MaxConnsPerAddr (and only the requested address and mode);
ReleaseConn, the sweep, Close, CloseAddress and connectivity changes never
grow any collection. -/
theorem c1_capacity_invariant (cfg : PoolConfig) (h : 0 ≤ cfg.maxConnsPerAddr) :
    (∀ (ops : List PoolOp) (a : String) (m : Bool),
      (collLen (runTrace cfg ops) a m : Int) ≤ cfg.maxConnsPerAddr) ∧
    (∀ s cid a m, collLen (releaseConn s cid) a m = collLen s a m) ∧
    (∀ s now a m, collLen (sweepState cfg now s) a m ≤ collLen s a m) ∧
    (∀ s addr f a m, keysNodup s →
      collLen (closeAddress s addr f).2 a m ≤ collLen s a m) ∧
    (∀ s f a m, collLen (closeState s f).2 a m = 0) ∧
    (∀ s cid st a m, collLen (envSetState s cid st) a m = collLen s a m) ∧
    (∀ s addr M now d a m,
      collLen (getConn cfg s addr M now d).2 a m ≤ collLen s a m + 1 ∧
      (collLen (getConn cfg s addr M now d).2 a m ≠ collLen s a m →
        a = addr ∧ m = M ∧ (collLen s a m : Int) < cfg.maxConnsPerAddr ∧
        collLen (getConn cfg s addr M now d).2 a m = collLen s a m + 1)) := by
  refine ⟨?_, ?_, ?_, ?_, ?_, ?_, ?_⟩
  · intro ops a m
    have hinit1 : keysNodup initState := by
      rw [keysNodup]
      exact List.nodup_nil
    have hinit2 : ∀ a m, (collLen initState a m : Int) ≤ cfg.maxConnsPerAddr := by
      intro a m
      have : collLen initState a m = 0 := rfl
      rw [this]
      exact_mod_cast h
    exact (runTrace_inv cfg h ops initState hinit1 hinit2).2 a m
  · exact collLen_release
  · exact fun s now a m => collLen_sweep cfg now s a m
  · exact fun s addr f a m hk => collLen_closeAddress s addr f a m hk
  · exact collLen_close
  · exact collLen_env
  · exact fun s addr M now d a m => getConn_collLen cfg s addr M now d a m

/-- C1 witness: after one acquire the collection size 1 is within the cap
10, closing an address does not grow anything, and the first acquire grew
the collection precisely because it was below the cap. -/
theorem c1_capacity_invariant_witness :
    ((collLen (runTrace cfgTen [PoolOp.acquire "a" false 0 true]) "a" false : Int)
      ≤ 10) ∧
    (collLen (closeAddress sStats "a" (fun _ => false)).2 "a" false ≤
      collLen sStats "a" false) ∧
    ("a" = "a" ∧ false = false ∧ ((collLen initState "a" false : Int) < 10) ∧
      collLen (getConn cfgTen initState "a" false 0 true).2 "a" false =
        collLen initState "a" false + 1) := by
  have h := c1_capacity_invariant cfgTen (by decide)
  refine ⟨h.1 [PoolOp.acquire "a" false 0 true] "a" false, ?_, ?_⟩
  · exact h.2.2.2.1 sStats "a" (fun _ => false) "a" false (by simp only [keysNodup]; decide)
  · exact (h.2.2.2.2.2.2 initState "a" false 0 true "a" false).2 (by decide)

theorem getConn_allConns (cfg : PoolConfig) (s : PoolState) (addr : String) (m : Bool)
    (now : Nat) (d : Bool) :
    (∃ pre c post, allConns s = pre ++ c :: post ∧
      (getConn cfg s addr m now d).1 = GetConnResult.ok c.connId ∧
      allConns (getConn cfg s addr m now d).2 = pre ++ touchConn now c :: post ∧
      (getConn cfg s addr m now d).2.nextConnId = s.nextConnId) ∨
    (∃ pre post, allConns s = pre ++ post ∧
      (getConn cfg s addr m now d).1 = GetConnResult.ok s.nextConnId ∧
      allConns (getConn cfg s addr m now d).2 =
        pre ++ freshConn now s.nextConnId m :: post ∧
      (getConn cfg s addr m now d).2.nextConnId = s.nextConnId + 1) ∨
    (allConns (getConn cfg s addr m now d).2 = allConns s ∧
      (getConn cfg s addr m now d).2.nextConnId = s.nextConnId ∧
      ∀ cid, (getConn cfg s addr m now d).1 ≠ GetConnResult.ok cid) := by
  cases hsp : s.pools with
  | none =>
      have hg : getConn cfg s addr m now d = (GetConnResult.panicked, s) := by
        rw [getConn, hsp]
      rw [hg]
      exact Or.inr (Or.inr ⟨rfl, rfl, fun cid h => GetConnResult.noConfusion h⟩)
  | some ps =>
      cases hlk : lookupPool ps addr with
      | some pool =>
          obtain ⟨l, r, hps2, hl, hset⟩ := lookupPool_split hlk
          have h1 : (getConn cfg s addr m now d).1 =
              (getConnList cfg now d s.nextConnId m (modeConns pool m)).1 := by
            simp [getConn, hsp, hlk]
          have hnid : (getConn cfg s addr m now d).2.nextConnId =
              (getConnList cfg now d s.nextConnId m (modeConns pool m)).2.2 := by
            simp [getConn, hsp, hlk]
          have hpools : (getConn cfg s addr m now d).2.pools =
              some (setPool ps addr
                (if m then { pool with streamConns :=
                    (getConnList cfg now d s.nextConnId m (modeConns pool m)).2.1 }
                 else { pool with unaryConns :=
                    (getConnList cfg now d s.nextConnId m (modeConns pool m)).2.1 })) := by
            simp [getConn, hsp, hlk]
          have hallpre : allConns s = joinPools l ++ (poolAllConns pool ++ joinPools r) := by
            rw [allConns, hsp, Option.getD_some, hps2, joinPools_append, joinPools_cons]
          have hallpost : allConns (getConn cfg s addr m now d).2 =
              joinPools l ++ (poolAllConns
                (if m then { pool with streamConns :=
                    (getConnList cfg now d s.nextConnId m (modeConns pool m)).2.1 }
                 else { pool with unaryConns :=
                    (getConnList cfg now d s.nextConnId m (modeConns pool m)).2.1 })
                ++ joinPools r) := by
            rw [allConns, hpools, Option.getD_some, hset, joinPools_append, joinPools_cons]
          cases hsc : scanStart cfg (modeConns pool m)
              (now % (modeConns pool m).length) with
          | some idx =>
              have hlt := scanStart_lt hsc
              left
              have hres : (getConnList cfg now d s.nextConnId m (modeConns pool m)).1 =
                  GetConnResult.ok ((modeConns pool m).getD idx default).connId := by
                rw [getConnList_eq, hsc]
              have hlist : (getConnList cfg now d s.nextConnId m (modeConns pool m)).2.1 =
                  (modeConns pool m).take idx ++
                    touchConn now ((modeConns pool m).getD idx default) ::
                      (modeConns pool m).drop (idx + 1) := by
                rw [getConnList_eq, hsc]
                show (modeConns pool m).set idx
                    (touchConn now ((modeConns pool m).getD idx default)) = _
                rw [List.set_eq_take_append_cons_drop]
                rw [if_pos hlt]
              have hnid2 : (getConnList cfg now d s.nextConnId m
                  (modeConns pool m)).2.2 = s.nextConnId := by
                rw [getConnList_eq, hsc]
              have hsplit : modeConns pool m = (modeConns pool m).take idx ++
                  ((modeConns pool m).getD idx default) ::
                    (modeConns pool m).drop (idx + 1) := by
                rw [getD_of_lt _ _ hlt, ← List.drop_eq_getElem_cons hlt,
                  List.take_append_drop]
              cases m
              · refine ⟨joinPools l ++ (modeConns pool false).take idx,
                  (modeConns pool false).getD idx default,
                  (modeConns pool false).drop (idx + 1) ++ pool.streamConns ++ joinPools r,
                  ?_, ?_, ?_, ?_⟩
                · rw [hallpre]
                  conv_lhs => rw [show poolAllConns pool =
                    modeConns pool false ++ pool.streamConns from rfl, hsplit]
                  simp [List.append_assoc]
                · rw [h1, hres]
                · rw [if_neg Bool.false_ne_true] at hallpost
                  rw [hallpost]
                  have hpa : poolAllConns { pool with unaryConns :=
                      (getConnList cfg now d s.nextConnId false
                        (modeConns pool false)).2.1 } =
                      (getConnList cfg now d s.nextConnId false
                        (modeConns pool false)).2.1 ++ pool.streamConns := rfl
                  rw [hpa, hlist]
                  simp [List.append_assoc]
                · rw [hnid, hnid2]
              · refine ⟨joinPools l ++ pool.unaryConns ++ (modeConns pool true).take idx,
                  (modeConns pool true).getD idx default,
                  (modeConns pool true).drop (idx + 1) ++ joinPools r, ?_, ?_, ?_, ?_⟩
                · rw [hallpre]
                  conv_lhs => rw [show poolAllConns pool =
                    pool.unaryConns ++ modeConns pool true from rfl, hsplit]
                  simp [List.append_assoc]
                · rw [h1, hres]
                · rw [if_pos rfl] at hallpost
                  rw [hallpost]
                  have hpa : poolAllConns { pool with streamConns :=
                      (getConnList cfg now d s.nextConnId true
                        (modeConns pool true)).2.1 } =
                      pool.unaryConns ++ (getConnList cfg now d s.nextConnId true
                        (modeConns pool true)).2.1 := rfl
                  rw [hpa, hlist]
                  simp [List.append_assoc]
                · rw [hnid, hnid2]
          | none =>
              by_cases hlen : ((modeConns pool m).length : Int) < cfg.maxConnsPerAddr
              · cases d with
                | true =>
                    right
                    left
                    have hres : (getConnList cfg now true s.nextConnId m
                        (modeConns pool m)).1 = GetConnResult.ok s.nextConnId := by
                      rw [getConnList_eq, hsc]
                      simp [hlen]
                    have hlist : (getConnList cfg now true s.nextConnId m
                        (modeConns pool m)).2.1 =
                        modeConns pool m ++ [freshConn now s.nextConnId m] := by
                      rw [getConnList_eq, hsc]
                      simp [hlen]
                    have hnid2 : (getConnList cfg now true s.nextConnId m
                        (modeConns pool m)).2.2 = s.nextConnId + 1 := by
                      rw [getConnList_eq, hsc]
                      simp [hlen]
                    cases m
                    · refine ⟨joinPools l ++ pool.unaryConns,
                        pool.streamConns ++ joinPools r, ?_, ?_, ?_, ?_⟩
                      · rw [hallpre]
                        simp [poolAllConns, List.append_assoc]
                      · rw [h1, hres]
                      · rw [if_neg Bool.false_ne_true] at hallpost
                        rw [hallpost]
                        have hpa : poolAllConns { pool with unaryConns :=
                            (getConnList cfg now true s.nextConnId false
                              (modeConns pool false)).2.1 } =
                            (getConnList cfg now true s.nextConnId false
                              (modeConns pool false)).2.1 ++ pool.streamConns := rfl
                        rw [hpa, hlist]
                        simp [modeConns, List.append_assoc]
                      · rw [hnid, hnid2]
                    · refine ⟨joinPools l ++ pool.unaryConns ++ pool.streamConns,
                        joinPools r, ?_, ?_, ?_, ?_⟩
                      · rw [hallpre]
                        simp [poolAllConns, List.append_assoc]
                      · rw [h1, hres]
                      · rw [if_pos rfl] at hallpost
                        rw [hallpost]
                        have hpa : poolAllConns { pool with streamConns :=
                            (getConnList cfg now true s.nextConnId true
                              (modeConns pool true)).2.1 } =
                            pool.unaryConns ++ (getConnList cfg now true s.nextConnId true
                              (modeConns pool true)).2.1 := rfl
                        rw [hpa, hlist]
                        simp [modeConns, List.append_assoc]
                      · rw [hnid, hnid2]
                | false =>
                    right
                    right
                    have hlist : (getConnList cfg now false s.nextConnId m
                        (modeConns pool m)).2 = (modeConns pool m, s.nextConnId) := by
                      rw [getConnList_eq, hsc]
                      simp [hlen]
                    have hres : ∀ cid, (getConnList cfg now false s.nextConnId m
                        (modeConns pool m)).1 ≠ GetConnResult.ok cid := by
                      rw [getConnList_eq, hsc]
                      simp [hlen]
                    refine ⟨?_, ?_, ?_⟩
                    · rw [hallpost, hallpre]
                      have hpool2 : (if m then { pool with streamConns :=
                          (getConnList cfg now false s.nextConnId m
                            (modeConns pool m)).2.1 }
                         else { pool with unaryConns :=
                          (getConnList cfg now false s.nextConnId m
                            (modeConns pool m)).2.1 }) = pool := by
                        rw [hlist]
                        cases m <;> rfl
                      rw [hpool2]
                    · rw [hnid, hlist]
                    · intro cid
                      rw [h1]
                      exact hres cid
              · right
                right
                have hlist : (getConnList cfg now d s.nextConnId m
                    (modeConns pool m)).2 = (modeConns pool m, s.nextConnId) := by
                  rw [getConnList_eq, hsc]
                  simp [hlen]
                have hres : ∀ cid, (getConnList cfg now d s.nextConnId m
                    (modeConns pool m)).1 ≠ GetConnResult.ok cid := by
                  rw [getConnList_eq, hsc]
                  simp [hlen]
                refine ⟨?_, ?_, ?_⟩
                · rw [hallpost, hallpre]
                  have hpool2 : (if m then { pool with streamConns :=
                      (getConnList cfg now d s.nextConnId m (modeConns pool m)).2.1 }
                     else { pool with unaryConns :=
                      (getConnList cfg now d s.nextConnId m (modeConns pool m)).2.1 })
                      = pool := by
                    rw [hlist]
                    cases m <;> rfl
                  rw [hpool2]
                · rw [hnid, hlist]
                · intro cid
                  rw [h1]
                  exact hres cid
      | none =>
          have hempty : modeConns { address := addr, unaryConns := [], streamConns := [] } m = [] := by
            cases m <;> rfl
          have h1 : (getConn cfg s addr m now d).1 =
              (getConnList cfg now d s.nextConnId m []).1 := by
            simp [getConn, hsp, hlk, hempty]
          have hnid : (getConn cfg s addr m now d).2.nextConnId =
              (getConnList cfg now d s.nextConnId m []).2.2 := by
            simp [getConn, hsp, hlk, hempty]
          have hpools : (getConn cfg s addr m now d).2.pools =
              some (ps ++ [(addr,
                (if m then { address := addr, unaryConns := [], streamConns := (getConnList cfg now d s.nextConnId m []).2.1 }
                 else { address := addr, unaryConns := (getConnList cfg now d s.nextConnId m []).2.1, streamConns := [] } : AddressPool))]) := by
            simp only [getConn, hsp, hlk, hempty, setPool_append_absent hlk]
          have hallpre : allConns s = joinPools ps := by
            rw [allConns, hsp, Option.getD_some]
          have hallpost : allConns (getConn cfg s addr m now d).2 =
              joinPools ps ++ poolAllConns
                (if m then { address := addr, unaryConns := [], streamConns := (getConnList cfg now d s.nextConnId m []).2.1 }
                 else { address := addr, unaryConns := (getConnList cfg now d s.nextConnId m []).2.1, streamConns := [] } : AddressPool) := by
            rw [allConns, hpools, Option.getD_some, joinPools_append, joinPools_cons]
            simp [joinPools]
          have hscan0 : scanStart cfg ([] : List ConnInfo) (now % ([] : List ConnInfo).length)
              = none := rfl
          by_cases hlen : (0 : Int) < cfg.maxConnsPerAddr
          · cases d with
            | true =>
                right
                left
                have hres : (getConnList cfg now true s.nextConnId m []).1 =
                    GetConnResult.ok s.nextConnId := by
                  rw [getConnList_eq, hscan0]
                  simp [hlen]
                have hlist : (getConnList cfg now true s.nextConnId m []).2.1 =
                    [freshConn now s.nextConnId m] := by
                  rw [getConnList_eq, hscan0]
                  simp [hlen]
                have hnid2 : (getConnList cfg now true s.nextConnId m []).2.2 =
                    s.nextConnId + 1 := by
                  rw [getConnList_eq, hscan0]
                  simp [hlen]
                refine ⟨allConns s, [], by rw [List.append_nil], ?_, ?_, ?_⟩
                · rw [h1, hres]
                · rw [hallpost, hlist, hallpre]
                  cases m <;> simp [poolAllConns]
                · rw [hnid, hnid2]
            | false =>
                right
                right
                have hlist : (getConnList cfg now false s.nextConnId m []).2 =
                    ([], s.nextConnId) := by
                  rw [getConnList_eq, hscan0]
                  simp [hlen]
                have hres : ∀ cid, (getConnList cfg now false s.nextConnId m []).1 ≠
                    GetConnResult.ok cid := by
                  rw [getConnList_eq, hscan0]
                  simp [hlen]
                refine ⟨?_, ?_, ?_⟩
                · rw [hallpost, hlist, hallpre]
                  cases m <;> simp [poolAllConns]
                · rw [hnid, hlist]
                · intro cid
                  rw [h1]
                  exact hres cid
          · right
            right
            have hlist : (getConnList cfg now d s.nextConnId m []).2 =
                ([], s.nextConnId) := by
              rw [getConnList_eq, hscan0]
              simp [hlen]
            have hres : ∀ cid, (getConnList cfg now d s.nextConnId m []).1 ≠
                GetConnResult.ok cid := by
              rw [getConnList_eq, hscan0]
              simp [hlen]
            refine ⟨?_, ?_, ?_⟩
            · rw [hallpost, hlist, hallpre]
              cases m <;> simp [poolAllConns]
            · rw [hnid, hlist]
            · intro cid
              rw [h1]
              exact hres cid

theorem decFirstLoad_decomp (cid : Nat) (l : List ConnInfo) :
    (∃ pre c post, l = pre ++ c :: post ∧ c.connId = cid ∧
      decFirstLoad cid l = pre ++ { c with load := c.load - 1 } :: post) ∨
    ((∀ c ∈ l, c.connId ≠ cid) ∧ decFirstLoad cid l = l) := by
  induction l with
  | nil => exact Or.inr ⟨by simp, rfl⟩
  | cons c rest ih =>
      by_cases hc : c.connId = cid
      · exact Or.inl ⟨[], c, rest, rfl, hc, by simp [decFirstLoad, hc]⟩
      · rcases ih with ⟨pre, c0, post, hl, hid, hdec⟩ | ⟨hno, hdec⟩
        · refine Or.inl ⟨c :: pre, c0, post, by rw [hl]; rfl, hid, ?_⟩
          simp [decFirstLoad, hc, hdec]
        · refine Or.inr ⟨?_, by simp [decFirstLoad, hc, hdec]⟩
          intro e he
          rcases List.mem_cons.1 he with he2 | he2
          · subst he2
            exact hc
          · exact hno e he2

theorem releaseConn_allConns_eq (s : PoolState) (cid : Nat) :
    allConns (releaseConn s cid) = decFirstLoad cid (allConns s) ∧
    (releaseConn s cid).nextConnId = s.nextConnId := by
  cases hsp : s.pools with
  | none =>
      have hrc : releaseConn s cid = s := by
        rw [releaseConn, hsp]
      have hnil : allConns s = [] := by
        rw [allConns, hsp]
        rfl
      rw [hrc, hnil]
      exact ⟨rfl, rfl⟩
  | some ps =>
      have hrc : releaseConn s cid = { s with pools := some (releasePools cid ps) } := by
        rw [releaseConn, hsp]
      rw [hrc]
      refine ⟨?_, rfl⟩
      show joinPools (releasePools cid ps) = _
      rw [(releasePools_spec cid ps).1]
      rw [allConns, hsp, Option.getD_some]

theorem subperm_append_both {α : Type _} {a b c d : List α} (h1 : a.Subperm b)
    (h2 : c.Subperm d) : (a ++ c).Subperm (b ++ d) := by
  rcases h1 with ⟨w1, hp1, hs1⟩
  rcases h2 with ⟨w2, hp2, hs2⟩
  exact ⟨w1 ++ w2, hp1.append hp2, hs1.append hs2⟩

theorem sweepPool_subperm (cfg : PoolConfig) (now : Int) (ap : AddressPool) :
    (poolAllConns (sweepPool cfg now ap).1).Subperm (poolAllConns ap) := by
  have hu := (sweepConns_spec cfg now ap.unaryConns).1
  have hs := (sweepConns_spec cfg now ap.streamConns).1
  exact subperm_append_both ⟨_, hu.symm, List.filter_sublist _⟩
    ⟨_, hs.symm, List.filter_sublist _⟩

theorem joinPools_map_subperm (f : AddressPool → AddressPool)
    (h : ∀ ap, (poolAllConns (f ap)).Subperm (poolAllConns ap))
    (ps : List (String × AddressPool)) :
    (joinPools (ps.map (fun p => (p.1, f p.2)))).Subperm (joinPools ps) := by
  induction ps with
  | nil => exact List.Subperm.refl _
  | cons p rest ih =>
      rw [List.map_cons, joinPools_cons, joinPools_cons]
      exact subperm_append_both (h p.2) ih

theorem sweepState_subperm (cfg : PoolConfig) (now : Int) (s : PoolState) :
    (allConns (sweepState cfg now s)).Subperm (allConns s) ∧
    (sweepState cfg now s).nextConnId = s.nextConnId := by
  cases hsp : s.pools with
  | none =>
      have hs2 : sweepState cfg now s = s := by
        rw [sweepState, hsp]
      rw [hs2]
      exact ⟨List.Subperm.refl _, rfl⟩
  | some ps =>
      have hsw : (sweepState cfg now s).pools =
          some (ps.map (fun p => (p.1, (sweepPool cfg now p.2).1))) := by
        rw [sweepState, hsp]
      have hnid : (sweepState cfg now s).nextConnId = s.nextConnId := by
        rw [sweepState, hsp]
      refine ⟨?_, hnid⟩
      rw [allConns, hsw, Option.getD_some, allConns, hsp, Option.getD_some]
      exact joinPools_map_subperm _ (sweepPool_subperm cfg now) ps

theorem closeAddress_subperm (s : PoolState) (addr : String) (f : Nat → Bool) :
    (allConns (closeAddress s addr f).2).Subperm (allConns s) ∧
    (closeAddress s addr f).2.nextConnId = s.nextConnId := by
  cases hsp : s.pools with
  | none =>
      have hca : closeAddress s addr f = (none, s) := by
        rw [closeAddress, hsp]
      rw [hca]
      exact ⟨List.Subperm.refl _, rfl⟩
  | some ps =>
      cases hlk : lookupPool ps addr with
      | none =>
          have hca : closeAddress s addr f = (none, s) := by
            rw [closeAddress, hsp]
            simp only [hlk]
          rw [hca]
          exact ⟨List.Subperm.refl _, rfl⟩
      | some pool =>
          obtain ⟨l, r, hps2, hl, hset⟩ := lookupPool_split hlk
          have hrm : removePool ps addr = l ++ r := removePool_split hps2 hl
          have h2 : (closeAddress s addr f).2.pools = some (removePool ps addr) := by
            rw [closeAddress, hsp]
            simp only [hlk]
          have hnid : (closeAddress s addr f).2.nextConnId = s.nextConnId := by
            rw [closeAddress, hsp]
            simp only [hlk]
          refine ⟨?_, hnid⟩
          rw [allConns, h2, Option.getD_some, hrm, allConns, hsp, Option.getD_some,
            hps2, joinPools_append, joinPools_append, joinPools_cons]
          exact subperm_append_both (List.Subperm.refl _)
            ⟨joinPools r, List.Perm.refl _, List.sublist_append_right _ _⟩

theorem closeState_allConns (s : PoolState) (f : Nat → Bool) :
    allConns (closeState s f).2 = [] ∧
    (closeState s f).2.nextConnId = s.nextConnId := ⟨rfl, rfl⟩

theorem joinPools_env (cid : Nat) (st : ConnState) (ps : List (String × AddressPool)) :
    joinPools (ps.map (fun p => (p.1,
      { p.2 with unaryConns := setConnStateList cid st p.2.unaryConns,
                 streamConns := setConnStateList cid st p.2.streamConns }))) =
      (joinPools ps).map
        (fun c => if c.connId = cid then { c with connState := st } else c) := by
  induction ps with
  | nil => rfl
  | cons p rest ih =>
      rw [List.map_cons, joinPools_cons, joinPools_cons, List.map_append, ih]
      have hpa : poolAllConns { p.2 with
          unaryConns := setConnStateList cid st p.2.unaryConns,
          streamConns := setConnStateList cid st p.2.streamConns } =
          (poolAllConns p.2).map
            (fun c => if c.connId = cid then { c with connState := st } else c) := by
        rw [poolAllConns, poolAllConns, List.map_append]
        rfl
      rw [hpa]

theorem envSetState_allConns (s : PoolState) (cid : Nat) (st : ConnState) :
    allConns (envSetState s cid st) = (allConns s).map
      (fun c => if c.connId = cid then { c with connState := st } else c) ∧
    (envSetState s cid st).nextConnId = s.nextConnId := by
  cases hsp : s.pools with
  | none =>
      have he : envSetState s cid st = s := by
        rw [envSetState, hsp]
      have hnil : allConns s = [] := by
        rw [allConns, hsp]
        rfl
      rw [he, hnil]
      exact ⟨rfl, rfl⟩
  | some ps =>
      have he : (envSetState s cid st).pools = some (ps.map (fun p => (p.1,
          { p.2 with unaryConns := setConnStateList cid st p.2.unaryConns,
                     streamConns := setConnStateList cid st p.2.streamConns }))) := by
        rw [envSetState, hsp]
      have hnid : (envSetState s cid st).nextConnId = s.nextConnId := by
        rw [envSetState, hsp]
      refine ⟨?_, hnid⟩
      rw [allConns, he, Option.getD_some, allConns, hsp, Option.getD_some]
      exact joinPools_env cid st ps

theorem ghostInv_congr {s s' : PoolState} {g : Nat → Int}
    (h : allConns s' = allConns s) (hn : s'.nextConnId = s.nextConnId)
    (hinv : GhostInv s g) : GhostInv s' g := by
  obtain ⟨h1, h2, h3, h4, h5⟩ := hinv
  refine ⟨?_, ?_, ?_, h4, ?_⟩
  · rw [allIds, h]
    exact h1
  · intro c hc
    rw [h] at hc
    rw [hn]
    exact h2 c hc
  · intro c hc
    rw [h] at hc
    exact h3 c hc
  · intro i hi
    rw [hn] at hi
    exact h5 i hi

theorem ghostInv_shrink {s s' : PoolState} {g : Nat → Int}
    (h : (allConns s').Subperm (allConns s)) (hn : s'.nextConnId = s.nextConnId)
    (hinv : GhostInv s g) : GhostInv s' g := by
  obtain ⟨h1, h2, h3, h4, h5⟩ := hinv
  refine ⟨?_, ?_, ?_, h4, ?_⟩
  · have hids : (allIds s').Subperm (allIds s) := by
      rcases h with ⟨w, hp, hs⟩
      refine ⟨w.map (fun c => c.connId), ?_, ?_⟩
      · exact hp.map (fun c => c.connId)
      · exact hs.map (fun c => c.connId)
    rcases hids with ⟨w2, hp2, hs2⟩
    exact hp2.nodup (hs2.nodup h1)
  · intro c hc
    rw [hn]
    exact h2 c (h.subset hc)
  · intro c hc
    exact h3 c (h.subset hc)
  · intro i hi
    rw [hn] at hi
    exact h5 i hi

theorem ghostInv_env {s s' : PoolState} {g : Nat → Int} (cid : Nat) (st : ConnState)
    (h : allConns s' = (allConns s).map
      (fun c => if c.connId = cid then { c with connState := st } else c))
    (hn : s'.nextConnId = s.nextConnId) (hinv : GhostInv s g) : GhostInv s' g := by
  obtain ⟨h1, h2, h3, h4, h5⟩ := hinv
  have hphi : ∀ c : ConnInfo,
      ((if c.connId = cid then { c with connState := st } else c) : ConnInfo).connId
        = c.connId ∧
      ((if c.connId = cid then { c with connState := st } else c) : ConnInfo).load
        = c.load := by
    intro c
    by_cases hc : c.connId = cid <;> simp [hc]
  refine ⟨?_, ?_, ?_, h4, ?_⟩
  · rw [allIds, h, List.map_map]
    have hfun : ((fun c : ConnInfo => c.connId) ∘
        (fun c => if c.connId = cid then { c with connState := st } else c)) =
        fun c : ConnInfo => c.connId := by
      funext c
      exact (hphi c).1
    rw [hfun]
    exact h1
  · intro c hc
    rw [h] at hc
    rcases List.mem_map.1 hc with ⟨e, he, hec⟩
    rw [hn, ← hec, (hphi e).1]
    exact h2 e he
  · intro c hc
    rw [h] at hc
    rcases List.mem_map.1 hc with ⟨e, he, hec⟩
    rw [← hec, (hphi e).2, (hphi e).1]
    exact h3 e he
  · intro i hi
    rw [hn] at hi
    exact h5 i hi

theorem ghostInv_update (s s' : PoolState) (g : Nat → Int) (d : Int)
    (pre post : List ConnInfo) (c c' : ConnInfo) (hinv : GhostInv s g)
    (hs : allConns s = pre ++ c :: post) (hs' : allConns s' = pre ++ c' :: post)
    (hid : c'.connId = c.connId) (hload : c'.load = c.load + d)
    (hnid : s'.nextConnId = s.nextConnId) (hpos : 0 ≤ g c.connId + d) :
    GhostInv s' (bumpG g c.connId d) := by
  obtain ⟨hnd, hltid, hld, hge, hzero⟩ := hinv
  have hcmem : c ∈ allConns s := by
    rw [hs]
    exact List.mem_append.2 (Or.inr (List.mem_cons_self _ _))
  have hids : allIds s' = allIds s := by
    rw [allIds, allIds, hs, hs']
    simp [hid]
  have hnotin : c.connId ∉ (pre ++ post).map (fun e => e.connId) := by
    have hnd2 := hnd
    rw [allIds, hs, List.map_append, List.map_cons] at hnd2
    have h2 := List.nodup_middle.1 hnd2
    rw [List.nodup_cons] at h2
    simpa [List.map_append] using h2.1
  refine ⟨?_, ?_, ?_, ?_, ?_⟩
  · rw [hids]
    exact hnd
  · intro e he
    rw [hs'] at he
    rw [hnid]
    rcases List.mem_append.1 he with he2 | he2
    · exact hltid e (by rw [hs]; exact List.mem_append.2 (Or.inl he2))
    · rcases List.mem_cons.1 he2 with he3 | he3
      · subst he3
        rw [hid]
        exact hltid c hcmem
      · exact hltid e
          (by rw [hs]; exact List.mem_append.2 (Or.inr (List.mem_cons_of_mem _ he3)))
  · intro e he
    rw [hs'] at he
    rcases List.mem_append.1 he with he2 | he2
    · have hne : e.connId ≠ c.connId := by
        intro hEq
        apply hnotin
        rw [← hEq]
        exact List.mem_map_of_mem _ (List.mem_append.2 (Or.inl he2))
      simp only [bumpG, if_neg hne]
      exact hld e (by rw [hs]; exact List.mem_append.2 (Or.inl he2))
    · rcases List.mem_cons.1 he2 with he3 | he3
      · subst he3
        rw [hload, hld c hcmem, hid]
        simp [bumpG]
      · have hne : e.connId ≠ c.connId := by
          intro hEq
          apply hnotin
          rw [← hEq]
          exact List.mem_map_of_mem _ (List.mem_append.2 (Or.inr he3))
        simp only [bumpG, if_neg hne]
        exact hld e
          (by rw [hs]; exact List.mem_append.2 (Or.inr (List.mem_cons_of_mem _ he3)))
  · intro i
    simp only [bumpG]
    by_cases hi : i = c.connId
    · rw [if_pos hi, hi]
      exact hpos
    · rw [if_neg hi]
      exact hge i
  · intro i hgei
    rw [hnid] at hgei
    have hcid : c.connId < s.nextConnId := hltid c hcmem
    have hne : i ≠ c.connId := by omega
    simp only [bumpG, if_neg hne]
    exact hzero i hgei

theorem ghostInv_insert (s s' : PoolState) (g : Nat → Int) (now : Nat) (m : Bool)
    (pre post : List ConnInfo) (hinv : GhostInv s g)
    (hs : allConns s = pre ++ post)
    (hs' : allConns s' = pre ++ freshConn now s.nextConnId m :: post)
    (hnid : s'.nextConnId = s.nextConnId + 1) :
    GhostInv s' (bumpG g s.nextConnId 1) := by
  obtain ⟨hnd, hltid, hld, hge, hzero⟩ := hinv
  have hfresh : s.nextConnId ∉ allIds s := by
    intro hmem
    rw [allIds] at hmem
    rcases List.mem_map.1 hmem with ⟨e, he, hec⟩
    have := hltid e he
    omega
  refine ⟨?_, ?_, ?_, ?_, ?_⟩
  · rw [allIds, hs', List.map_append, List.map_cons]
    rw [List.nodup_middle, List.nodup_cons]
    constructor
    · intro hmem
      apply hfresh
      rw [allIds, hs, List.map_append]
      simpa [freshConn, List.map_append] using hmem
    · have hnd2 := hnd
      rw [allIds, hs, List.map_append] at hnd2
      exact hnd2
  · intro e he
    rw [hs'] at he
    rw [hnid]
    rcases List.mem_append.1 he with he2 | he2
    · have := hltid e (by rw [hs]; exact List.mem_append.2 (Or.inl he2))
      omega
    · rcases List.mem_cons.1 he2 with he3 | he3
      · subst he3
        simp [freshConn]
      · have := hltid e (by rw [hs]; exact List.mem_append.2 (Or.inr he3))
        omega
  · intro e he
    rw [hs'] at he
    rcases List.mem_append.1 he with he2 | he2
    · have hmem : e ∈ allConns s := by
        rw [hs]
        exact List.mem_append.2 (Or.inl he2)
      have hne : e.connId ≠ s.nextConnId := by
        have := hltid e hmem
        omega
      simp only [bumpG, if_neg hne]
      exact hld e hmem
    · rcases List.mem_cons.1 he2 with he3 | he3
      · subst he3
        simp only [freshConn, bumpG, if_pos rfl]
        rw [hzero s.nextConnId (Nat.le_refl _)]
        norm_num
      · have hmem : e ∈ allConns s := by
          rw [hs]
          exact List.mem_append.2 (Or.inr he3)
        have hne : e.connId ≠ s.nextConnId := by
          have := hltid e hmem
          omega
        simp only [bumpG, if_neg hne]
        exact hld e hmem
  · intro i
    simp only [bumpG]
    by_cases hi : i = s.nextConnId
    · rw [if_pos hi]
      have := hge i
      omega
    · rw [if_neg hi]
      exact hge i
  · intro i hgei
    rw [hnid] at hgei
    have hne : i ≠ s.nextConnId := by omega
    simp only [bumpG, if_neg hne]
    exact hzero i (by omega)

theorem ghostInv_step (cfg : PoolConfig) (s : PoolState) (g : Nat → Int) (op : PoolOp)
    (hinv : GhostInv s g)
    (hbal : (match op with | PoolOp.release c => 1 ≤ g c | _ => True)) :
    GhostInv (step cfg s op) (ghostStep cfg s g op) := by
  cases op with
  | acquire addr M now d =>
      rcases getConn_allConns cfg s addr M now d with
        ⟨pre, c, post, hs, hres, hs', hnid⟩ | ⟨pre, post, hs, hres, hs', hnid⟩ |
        ⟨hs', hnid, hres⟩
      · have hg : ghostStep cfg s g (PoolOp.acquire addr M now d) = bumpG g c.connId 1 := by
          rw [ghostStep]
          simp only [hres]
        rw [step, hg]
        refine ghostInv_update s (getConn cfg s addr M now d).2 g 1 pre post c
          (touchConn now c) hinv hs hs' rfl rfl hnid ?_
        have := hinv.2.2.2.1 c.connId
        omega
      · have hg : ghostStep cfg s g (PoolOp.acquire addr M now d) =
            bumpG g s.nextConnId 1 := by
          rw [ghostStep]
          simp only [hres]
        rw [step, hg]
        exact ghostInv_insert s (getConn cfg s addr M now d).2 g now M pre post hinv
          hs hs' hnid
      · have hg : ghostStep cfg s g (PoolOp.acquire addr M now d) = g := by
          rw [ghostStep]
          cases hr : (getConn cfg s addr M now d).1 with
          | ok cid => exact absurd hr (by intro hx; exact hres cid hx)
          | dialFailed => simp only [hr]
          | poolExhausted => simp only [hr]
          | panicked => simp only [hr]
        rw [step, hg]
        exact ghostInv_congr hs' hnid hinv
  | release cid =>
      have hg : ghostStep cfg s g (PoolOp.release cid) = bumpG g cid (-1) := rfl
      have hbal2 : 1 ≤ g cid := hbal
      obtain ⟨hall, hnid⟩ := releaseConn_allConns_eq s cid
      rw [step, hg]
      rcases decFirstLoad_decomp cid (allConns s) with
        ⟨pre, c, post, hsdec, hidc, hdec⟩ | ⟨hno, hdec⟩
      · rw [hsdec] at hall hdec
        rw [hdec] at hall
        subst hidc
        refine ghostInv_update s (releaseConn s c.connId) g (-1) pre post c
          { c with load := c.load - 1 } hinv hsdec hall rfl ?_ hnid ?_
        · simp
          omega
        · omega
      · rw [hdec] at hall
        obtain ⟨hnd, hltid, hld, hge, hzero⟩ := hinv
        have hcidlt : cid < s.nextConnId := by
          by_contra hcon
          have := hzero cid (by omega)
          omega
        refine ⟨?_, ?_, ?_, ?_, ?_⟩
        · rw [allIds, hall]
          exact hnd
        · intro e he
          rw [hall] at he
          rw [hnid]
          exact hltid e he
        · intro e he
          rw [hall] at he
          have hne : e.connId ≠ cid := hno e he
          simp only [bumpG, if_neg hne]
          exact hld e he
        · intro i
          simp only [bumpG]
          by_cases hi : i = cid
          · rw [if_pos hi, hi]
            omega
          · rw [if_neg hi]
            exact hge i
        · intro i hgei
          rw [hnid] at hgei
          have hne : i ≠ cid := by omega
          simp only [bumpG, if_neg hne]
          exact hzero i hgei
  | sweep now =>
      obtain ⟨hsub, hnid⟩ := sweepState_subperm cfg now s
      have hg : ghostStep cfg s g (PoolOp.sweep now) = g := rfl
      rw [step, hg]
      exact ghostInv_shrink hsub hnid hinv
  | closeAddr addr f =>
      obtain ⟨hsub, hnid⟩ := closeAddress_subperm s addr f
      have hg : ghostStep cfg s g (PoolOp.closeAddr addr f) = g := rfl
      rw [step, hg]
      exact ghostInv_shrink hsub hnid hinv
  | closeAll f =>
      obtain ⟨hall, hnid⟩ := closeState_allConns s f
      have hg : ghostStep cfg s g (PoolOp.closeAll f) = g := rfl
      rw [step, hg]
      refine ghostInv_shrink ?_ hnid hinv
      rw [hall]
      exact List.nil_subperm
  | envState cid st =>
      obtain ⟨hall, hnid⟩ := envSetState_allConns s cid st
      have hg : ghostStep cfg s g (PoolOp.envState cid st) = g := rfl
      rw [step, hg]
      exact ghostInv_env cid st hall hnid hinv

theorem balanced_inv (cfg : PoolConfig) :
    ∀ (ops : List PoolOp) (s : PoolState) (g : Nat → Int), GhostInv s g →
      BalancedFrom cfg s g ops →
      ∀ c ∈ allConns (ops.foldl (step cfg) s), 0 ≤ c.load := by
  intro ops
  induction ops with
  | nil =>
      intro s g hinv hbal c hc
      rw [hinv.2.2.1 c hc]
      exact hinv.2.2.2.1 c.connId
  | cons op rest ih =>
      intro s g hinv hbal
      rw [List.foldl_cons]
      exact ih (step cfg s op) (ghostStep cfg s g op)
        (ghostInv_step cfg s g op hinv hbal.1) hbal.2

/-- C5 counterexample: the claim as stated is false: releasing the same
handle twice — a sequence of GetConn and ReleaseConn operations — drives the
entry's load to minus one. -/
theorem c5_counterexample :
    ∃ c ∈ allConns (runTrace cfgSat
      [PoolOp.acquire "a" false 0 true, PoolOp.release 0, PoolOp.release 0]),
      c.load < 0 := by
  decide

/-- C5 (amended): load non-negativity holds across every sequence of
operations that obeys the balanced-release discipline, in which every
ReleaseConn concerns a handle with at least one outstanding checkout (no
handle is released more often than GetConn returned it). -/
theorem c5_load_nonneg_balanced (cfg : PoolConfig) (ops : List PoolOp)
    (hbal : Balanced cfg ops) :
    ∀ c ∈ allConns (runTrace cfg ops), 0 ≤ c.load := by
  have hinv : GhostInv initState (fun _ => 0) := by
    refine ⟨?_, ?_, ?_, ?_, ?_⟩
    · exact List.nodup_nil
    · intro c hc
      exact absurd hc (by simp [allConns, initState, joinPools])
    · intro c hc
      exact absurd hc (by simp [allConns, initState, joinPools])
    · intro i
      exact le_refl 0
    · intro i _
      rfl
  exact balanced_inv cfg ops initState (fun _ => 0) hinv hbal

/-- C5 witness: one acquire followed by one matching release is balanced,
and leaves the entry's load at zero, which is non-negative. -/
theorem c5_load_nonneg_balanced_witness : (0 : Int) ≤ entryBal.load :=
  c5_load_nonneg_balanced cfgSat
    [PoolOp.acquire "a" false 0 true, PoolOp.release 0]
    ⟨trivial, by decide, trivial⟩ entryBal (by decide)

end TaurusGrpc
